import Mathlib

/-! Restricted shell (`secure_shell.cpp`): embedding and verification.

A shallow embedding of the command gate, the ssh pre-flight pipeline, the
session loop and the PTY relay loop of `secure_shell.cpp`, followed by the
theorems that settle the claims made about them.

Conventions of the embedding:

* a `std::string` is a `List Char` (`Str`); the C locale is assumed, so the
  character classes are the ASCII ones;
* a C `int` is an `Int`; `int` multiplication wraps modulo `2^32`
  (`int_mul`) and the conversion of an `int` to `size_t` is reduction modulo
  `2^64` (`to_size_t`);
* every call of an external collaborator (resolver, `popen`, sockets,
  `forkpty`, standard input) takes its outcome from an explicit `World`
  record or from the list of pending input lines, and leaves an `Event` in
  the trace that the model returns.
-/

namespace SecureShell

/-- A `std::string`, as the list of its characters. -/
abbrev Str := List Char

/-! ## Configuration -/

def DEFAULT_MAX_ARGS : Int := 10
def DEFAULT_MAX_ARG_LENGTH : Int := 100
def DEFAULT_COMMAND_TIMEOUT : Int := 30
def DEFAULT_LOG_FILE : Str := "/var/log/secure_shell.log".toList
def DEFAULT_LOG_ROTATE_SIZE : Int := 1048576

/-- The `Config` struct; every numeric field is a C `int`. -/
structure Config where
  max_args : Int
  max_arg_length : Int
  command_timeout : Int
  log_file : Str
  log_rotate_size : Int
deriving DecidableEq

/-- The configuration `load_config` returns when the file sets no key. -/
def default_config : Config :=
  { max_args := DEFAULT_MAX_ARGS
    max_arg_length := DEFAULT_MAX_ARG_LENGTH
    command_timeout := DEFAULT_COMMAND_TIMEOUT
    log_file := DEFAULT_LOG_FILE
    log_rotate_size := DEFAULT_LOG_ROTATE_SIZE }

def INT_MIN : Int := -2147483648
def INT_MAX : Int := 2147483647

/-- Two's complement wrap-around of an integer into the range of `int`. -/
def wrap_int (x : Int) : Int := (x + 2147483648) % 4294967296 - 2147483648

/-- The product of two `int`s, `a * b` in the source. Signed overflow is
undefined in C++; the two's complement result that the hardware gives is
taken. -/
def int_mul (a b : Int) : Int := wrap_int (a * b)

/-- The implicit conversion of an `int` to `size_t` in a comparison with
`std::string::length()` or `std::vector::size()`. -/
def to_size_t (x : Int) : Nat := (x % 18446744073709551616).toNat

/-- The address-space limit that `set_resource_limits` installs before the
session loop starts: `1024 * 1024 * 1024` bytes. -/
def RLIMIT_AS_BYTES : Nat := 1024 * 1024 * 1024

/-! ## Character classes (C locale) -/

def isdigit (c : Char) : Bool := decide (48 ≤ c.toNat ∧ c.toNat ≤ 57)
def isupper (c : Char) : Bool := decide (65 ≤ c.toNat ∧ c.toNat ≤ 90)
def islower (c : Char) : Bool := decide (97 ≤ c.toNat ∧ c.toNat ≤ 122)
def isalpha (c : Char) : Bool := isupper c || islower c
def isalnum (c : Char) : Bool := isalpha c || isdigit c

/-- The function `std::isspace`: space, `\t`, `\n`, `\v`, `\f`, `\r`. -/
def isspace (c : Char) : Bool := decide (c.toNat = 32 ∨ (9 ≤ c.toNat ∧ c.toNat ≤ 13))

/-! ## Regular expressions (`std::regex`, ECMAScript grammar) -/

/-- The fragment of the ECMAScript grammar that the patterns of the source
use: character classes, alternation, concatenation and iteration. -/
inductive Regex where
  | never : Regex
  | eps : Regex
  | cls : (Char → Bool) → Regex
  | alt : Regex → Regex → Regex
  | cat : Regex → Regex → Regex
  | star : Regex → Regex

namespace Regex

/-- The language of a regular expression. -/
def Matches : Regex → Str → Prop
  | never, _ => False
  | eps, s => s = []
  | cls p, s => ∃ c, s = [c] ∧ p c = true
  | alt a b, s => Matches a s ∨ Matches b s
  | cat a b, s => ∃ u v, s = u ++ v ∧ Matches a u ∧ Matches b v
  | star a, s => ∃ L : List Str, s = L.flatten ∧ ∀ u ∈ L, u ≠ [] ∧ Matches a u

/-- Whether the expression matches the empty string. -/
def nullable : Regex → Bool
  | never => false
  | eps => true
  | cls _ => false
  | alt a b => nullable a || nullable b
  | cat a b => nullable a && nullable b
  | star _ => true

/-- The derivative of an expression by one character. -/
def deriv : Regex → Char → Regex
  | never, _ => never
  | eps, _ => never
  | cls p, c => if p c then eps else never
  | alt a b, c => alt (deriv a c) (deriv b c)
  | cat a b, c =>
      if nullable a then alt (cat (deriv a c) b) (deriv b c) else cat (deriv a c) b
  | star a, c => cat (deriv a c) (star a)

/-- One literal character. -/
def chr (c : Char) : Regex := cls (fun x => x == c)

/-- A bracket expression listing its members, such as `[cwW]`. -/
def one_of (cs : Str) : Regex := cls (fun x => cs.contains x)

/-- The quantifier `+`. -/
def plus (r : Regex) : Regex := cat r (star r)

/-- The quantifier `?`. -/
def opt (r : Regex) : Regex := alt r eps

/-- The class `\d`. -/
def digit : Regex := cls isdigit

/-- The class `\s`. -/
def space : Regex := cls isspace

/-- The class `\w`: `[A-Za-z0-9_]`. -/
def word : Regex := cls (fun c => isalnum c || c == '_')

/-- The quantifier `{1,3}`. -/
def rep_1_3 (r : Regex) : Regex := cat r (opt (cat r (opt r)))

/-- The quantifier `{3}`. -/
def rep_3 (r : Regex) : Regex := cat r (cat r r)

end Regex

/-- The function `std::regex_match`: the whole string is in the language of
the expression. -/
def regex_match (s : Str) (r : Regex) : Bool :=
  match s with
  | [] => r.nullable
  | c :: cs => regex_match cs (r.deriv c)

/-! ## The command gate -/

/-- The test `arg.find(option) == 0`: `option` occurs in `arg` at position 0. -/
def starts_with : Str → Str → Bool
  | [], _ => true
  | _ :: _, [] => false
  | o :: os, a :: as => o == a && starts_with os as

def allowed_commands : List Str := ["ping".toList, "tracepath".toList, "ssh".toList]

/-- The function `is_allowed_command`: `std::find` over `allowed_commands`. -/
def is_allowed_command (command : Str) : Bool :=
  allowed_commands.contains command

def forbidden_options : List Str := ["-L".toList, "-R".toList, "-D".toList]

/-- The class `[a-zA-Z0-9.-]`. -/
def host_class : Regex := Regex.cls (fun c => isalnum c || c == '.' || c == '-')

/-- The class `[a-zA-Z0-9._-]`. -/
def user_class : Regex := Regex.cls (fun c => isalnum c || c == '.' || c == '_' || c == '-')

/-- The sub-pattern `\d{1,3}(\.\d{1,3}){3}` shared by the ping and tracepath patterns. -/
def dotted_quad : Regex :=
  Regex.cat (Regex.rep_1_3 Regex.digit)
    (Regex.rep_3 (Regex.cat (Regex.chr '.') (Regex.rep_1_3 Regex.digit)))

/-- The pattern
`^(-[1246AaCfGgKkMNnqsTtVvXxYy]|-[bceiJlmOopQRSWw]\s*\w+|[a-zA-Z0-9._-]+@?[a-zA-Z0-9.-]+)$`. -/
def ssh_arg_regex : Regex :=
  Regex.alt
    (Regex.cat (Regex.chr '-') (Regex.one_of "1246AaCfGgKkMNnqsTtVvXxYy".toList))
    (Regex.alt
      (Regex.cat (Regex.chr '-')
        (Regex.cat (Regex.one_of "bceiJlmOopQRSWw".toList)
          (Regex.cat (Regex.star Regex.space) (Regex.plus Regex.word))))
      (Regex.cat (Regex.plus user_class)
        (Regex.cat (Regex.opt (Regex.chr '@')) (Regex.plus host_class))))

/-- The pattern `^(-[cwW]\s*\d+|-[fnqv]|\d{1,3}(\.\d{1,3}){3}|[a-zA-Z0-9.-]+)$`. -/
def ping_arg_regex : Regex :=
  Regex.alt
    (Regex.cat (Regex.chr '-')
      (Regex.cat (Regex.one_of "cwW".toList)
        (Regex.cat (Regex.star Regex.space) (Regex.plus Regex.digit))))
    (Regex.alt
      (Regex.cat (Regex.chr '-') (Regex.one_of "fnqv".toList))
      (Regex.alt dotted_quad (Regex.plus host_class)))

/-- The pattern `^(-[nl]\s*\d+|-[bfhm]|\d{1,3}(\.\d{1,3}){3}|[a-zA-Z0-9.-]+)$`. -/
def tracepath_arg_regex : Regex :=
  Regex.alt
    (Regex.cat (Regex.chr '-')
      (Regex.cat (Regex.one_of "nl".toList)
        (Regex.cat (Regex.star Regex.space) (Regex.plus Regex.digit))))
    (Regex.alt
      (Regex.cat (Regex.chr '-') (Regex.one_of "bfhm".toList))
      (Regex.alt dotted_quad (Regex.plus host_class)))

/-- The map `command_arg_patterns` of `is_safe_argument`. -/
def command_arg_patterns : List (Str × Regex) :=
  [("ping".toList, ping_arg_regex), ("tracepath".toList, tracepath_arg_regex)]

/-- The function `is_safe_ssh_argument`. -/
def is_safe_ssh_argument (arg : Str) : Bool :=
  if forbidden_options.any (fun option => starts_with option arg) then false
  else regex_match arg ssh_arg_regex

/-- The function `is_safe_argument`; `arg.length() <= max_arg_length` compares
a `size_t` with an `int`, which is converted to `size_t`. -/
def is_safe_argument (arg : Str) (command : Str) (max_arg_length : Int) : Bool :=
  if command = "ssh".toList then
    is_safe_ssh_argument arg && decide (arg.length ≤ to_size_t max_arg_length)
  else
    match command_arg_patterns.lookup command with
    | none => false
    | some pattern => regex_match arg pattern && decide (arg.length ≤ to_size_t max_arg_length)

/-- The predicate of the `copy_if` in `sanitize_input`. -/
def sanitize_keep (c : Char) : Bool :=
  isalnum c || c == ' ' || c == '-' || c == '.' || c == '@' || c == '_' || c == '/'

/-- The function `sanitize_input`: `std::copy_if` with a `back_inserter`, that is
a left-to-right pass that appends each kept character to `sanitized`. -/
def sanitize_input (input : Str) : Str :=
  input.foldl (fun sanitized c => if sanitize_keep c then sanitized ++ [c] else sanitized) []

/-- Extraction of whitespace-separated words by `operator>>`, as the
`istream_iterator<std::string>` range does: `cur` is the word being read. -/
def read_words : Str → Str → List Str
  | [], cur => if cur = [] then [] else [cur]
  | c :: cs, cur =>
      if isspace c then
        (if cur = [] then read_words cs [] else cur :: read_words cs [])
      else read_words cs (cur ++ [c])

/-- The vector `tokens` built from `std::istringstream iss(input)`. -/
def tokenize (input : Str) : List Str := read_words input []

/-- The call `ssh_arg.find(c)`: the first position of `c`, if any. -/
def find_char (c : Char) : Str → Option Nat
  | [] => none
  | x :: xs => if x = c then some 0 else (find_char c xs).map (· + 1)

/-- The function `extract_hostname`. -/
def extract_hostname (ssh_arg : Str) : Str :=
  match find_char '@' ssh_arg with
  | some at_pos => ssh_arg.drop (at_pos + 1)
  | none => ssh_arg

/-- The result of `std::stoi`: a value, or one of its two exceptions. -/
inductive StoiResult where
  | value : Int → StoiResult
  | invalid_argument : StoiResult
  | out_of_range : StoiResult
deriving DecidableEq

/-- The value of a run of decimal digits. -/
def digits_value (ds : Str) : Nat :=
  ds.foldl (fun acc d => 10 * acc + (d.toNat - 48)) 0

/-- The function `std::stoi` in base 10: leading whitespace is skipped, an
optional sign is read, then the longest run of digits; no digit at all is
`invalid_argument`, a value outside `int` is `out_of_range`. -/
def stoi (s : Str) : StoiResult :=
  let body := s.dropWhile isspace
  let negative := body.head? = some '-'
  let unsigned := if body.head? = some '-' ∨ body.head? = some '+' then body.drop 1 else body
  let ds := unsigned.takeWhile isdigit
  if ds = [] then .invalid_argument
  else
    let v : Int := if negative then -(digits_value ds : Int) else (digits_value ds : Int)
    if INT_MIN ≤ v ∧ v ≤ INT_MAX then .value v else .out_of_range

/-! ## External collaborators -/

/-- What `ping_host` observes: `popen` fails (no subprocess), or the `ping`
subprocess runs and exits with status zero or not. -/
inductive PingResult where
  | popen_failed
  | exit_zero
  | exit_nonzero
deriving DecidableEq

/-- What `check_ssh_key` observes: `popen` fails (the function throws
`std::runtime_error`), or the `ssh-keygen` subprocess runs and the host is
found (exit status zero and `Host` in the output) or not. -/
inductive KeyCheck where
  | popen_failed
  | known
  | unknown
deriving DecidableEq

/-- What `add_ssh_key` observes, in the order of its exits: `popen` fails;
`ssh-keyscan` exits non-zero; its output is empty; `HOME` is not set (the
`std::string` built from a null pointer throws); the `.ssh` directory or the
`known_hosts` stream cannot be set up; the write fails; the key is appended. -/
inductive AddKey where
  | popen_failed
  | scan_failed
  | no_key
  | home_unset
  | store_failed
  | write_failed
  | stored
deriving DecidableEq

/-- What `execute_command` observes from `forkpty`. -/
inductive ExecResult where
  | fork_failed
  | ran
deriving DecidableEq

/-- The outcomes of the external calls made while one line is processed. -/
structure World where
  is_valid_hostname : Str → Bool
  ping_host : Str → PingResult
  is_port_open : Str → Int → Bool
  check_ssh_key : Str → KeyCheck
  add_ssh_key : Str → AddKey
  execute_command : Str → List Str → ExecResult

/-- The lines that the loop body writes to `std::cerr`. -/
inductive Diagnostic where
  | input_too_long
  | too_many_arguments
  | command_not_allowed
  | invalid_hostname
  | host_not_responding : Str → Diagnostic
  | port_not_open : Int → Str → Diagnostic
  | connection_aborted
  | unable_to_add_key : Str → Diagnostic
  | key_exception : Str → Diagnostic
  | invalid_or_unsafe_arguments
  | error_executing : Str → Diagnostic
deriving DecidableEq

/-- The text of `std::to_string(port)`. -/
def port_text (port : Int) : Str := (toString port).toList

/-- The characters written to `std::cerr` for each diagnostic. -/
def Diagnostic.text : Diagnostic → Str
  | .input_too_long => "Error: Input too long.".toList
  | .too_many_arguments => "Error: Too many arguments.".toList
  | .command_not_allowed => "Error: Command not allowed.".toList
  | .invalid_hostname => "Error: Invalid hostname or IP address.".toList
  | .host_not_responding hostname =>
      "Warning: Host ".toList ++ hostname ++ " is not responding to ping.".toList
  | .port_not_open port hostname =>
      "Warning: SSH port ".toList ++ port_text port ++ " is not open on host ".toList
        ++ hostname ++ ".".toList
  | .connection_aborted => "Error: Connection aborted by the user.".toList
  | .unable_to_add_key hostname =>
      "Error: Unable to add the host key for ".toList ++ hostname ++ ".".toList
  | .key_exception what => "Error: ".toList ++ what
  | .invalid_or_unsafe_arguments => "Error: Invalid or unsafe arguments.".toList
  | .error_executing what => "Error executing command: ".toList ++ what

/-- The observable steps of the session loop. The rotating log is not
modelled. -/
inductive Event where
  | prompt : Event
  | cerr : Diagnostic → Event
  | ask : Str → Str → Event
  | is_valid_hostname : Str → Bool → Event
  | ping_host : Str → PingResult → Event
  | is_port_open : Str → Int → Bool → Event
  | check_ssh_key : Str → KeyCheck → Event
  | prompt_user_for_ssh_key : Str → Str → Event
  | add_ssh_key : Str → AddKey → Event
  | execute_command : Str → List Str → ExecResult → Event
deriving DecidableEq

namespace Event

/-- The event is a call of `execute_command`. -/
def is_execute : Event → Bool
  | execute_command _ _ _ => true
  | _ => false

/-- The event is a call of one of the `popen`-based pre-flight helpers. -/
def is_popen_call : Event → Bool
  | ping_host _ _ => true
  | check_ssh_key _ _ => true
  | add_ssh_key _ _ => true
  | _ => false

/-- The event is a step of the ssh pre-flight: hostname resolution, ping
probe, port probe, known-host check, operator prompt, key acquisition. -/
def is_preflight : Event → Bool
  | is_valid_hostname _ _ => true
  | ping_host _ _ => true
  | is_port_open _ _ _ => true
  | check_ssh_key _ _ => true
  | ask _ _ => true
  | prompt_user_for_ssh_key _ _ => true
  | add_ssh_key _ _ => true
  | _ => false

/-- The event reaches code that starts a subprocess: `execute_command` or a
`popen`-based helper. -/
def reaches_subprocess (e : Event) : Bool := e.is_execute || e.is_popen_call

/-- A child process really came into being at this event: `popen` or
`forkpty` succeeded. -/
def child_created : Event → Bool
  | ping_host _ r => r != PingResult.popen_failed
  | check_ssh_key _ r => r != KeyCheck.popen_failed
  | add_ssh_key _ r => r != AddKey.popen_failed
  | execute_command _ _ r => r == ExecResult.ran
  | _ => false

/-- The event appends to `known_hosts`. -/
def writes_known_hosts : Event → Bool
  | add_ssh_key _ r => r == AddKey.stored || r == AddKey.write_failed
  | _ => false

end Event

/-- How the processing of one line leaves the loop body: `continue` or the
end of the body (`next`), `break` on `exit`, an exception that no handler
inside the loop catches (`fatal`), or `tokens.back()` on an empty vector
(`undefined`). -/
inductive LineOutcome where
  | next
  | exit
  | fatal : Str → LineOutcome
  | undefined
deriving DecidableEq

/-- A trace, how the code that produced it ends, and what is left on standard
input. -/
structure Step (α : Type) where
  events : List Event
  outcome : α
  stdin : List Str
deriving DecidableEq

/-- The result of one pass through the loop body. -/
abbrev Result := Step LineOutcome

/-- The result of the ssh block: `none` when control leaves the block at its
end and goes on to the argument check, `some o` when the block ends the pass
itself (by `continue`, by an exception, or by undefined behaviour). -/
abbrev Preflight := Step (Option LineOutcome)

/-- Record an event in front of what follows it. -/
def emit {α : Type} (e : Event) (r : Step α) : Step α := { r with events := e :: r.events }

/-- The call `std::getline(std::cin, response)`: the next pending line, or the
empty string when the input is exhausted. -/
def getline (stdin : List Str) : Str × List Str :=
  match stdin with
  | [] => ([], [])
  | l :: ls => (l, ls)

/-- The token that follows the first `-p`, as `std::find` and `std::next`
locate it. -/
def token_after_p : List Str → Option Str
  | [] => none
  | t :: ts => if t = "-p".toList then ts.head? else token_after_p ts

/-- The known-host step of the ssh block, lines 619 to 637. -/
def key_step (w : World) (hostname : Str) (stdin : List Str) : Preflight :=
  match w.check_ssh_key hostname with
  | .popen_failed =>
      emit (.check_ssh_key hostname .popen_failed)
        ⟨[], some (.fatal "popen() failed!".toList), stdin⟩
  | .known => emit (.check_ssh_key hostname .known) ⟨[], none, stdin⟩
  | .unknown =>
      emit (.check_ssh_key hostname .unknown)
        (emit (.prompt_user_for_ssh_key hostname (getline stdin).1)
          (if (getline stdin).1 ≠ "yes".toList then
            emit (.cerr .connection_aborted) ⟨[], some .next, (getline stdin).2⟩
          else
            emit (.add_ssh_key hostname (w.add_ssh_key hostname))
              (match w.add_ssh_key hostname with
              | .stored => ⟨[], none, (getline stdin).2⟩
              | .home_unset =>
                  emit (.cerr (.key_exception
                      "basic_string: construction from null is not valid".toList))
                    ⟨[], some .next, (getline stdin).2⟩
              | _ =>
                  emit (.cerr (.unable_to_add_key hostname))
                    ⟨[], some .next, (getline stdin).2⟩)))

/-- The port probe of the ssh block, lines 608 to 617, followed by the
known-host step. -/
def port_step (w : World) (hostname : Str) (ssh_port : Int) (stdin : List Str) : Preflight :=
  if w.is_port_open hostname ssh_port then
    emit (.is_port_open hostname ssh_port true) (key_step w hostname stdin)
  else
    emit (.is_port_open hostname ssh_port false)
      (emit (.cerr (.port_not_open ssh_port hostname))
        (emit (.ask "Do you want to continue? (yes/no): ".toList (getline stdin).1)
          (if (getline stdin).1 ≠ "yes".toList then ⟨[], some .next, (getline stdin).2⟩
          else key_step w hostname (getline stdin).2)))

/-- The ping probe of the ssh block, lines 597 to 606, followed by the port
probe. -/
def ping_step (w : World) (hostname : Str) (ssh_port : Int) (stdin : List Str) : Preflight :=
  emit (.ping_host hostname (w.ping_host hostname))
    (if w.ping_host hostname = .exit_zero then port_step w hostname ssh_port stdin
    else
      emit (.cerr (.host_not_responding hostname))
        (emit (.ask "Do you want to continue? (yes/no): ".toList (getline stdin).1)
          (if (getline stdin).1 ≠ "yes".toList then ⟨[], some .next, (getline stdin).2⟩
          else port_step w hostname ssh_port (getline stdin).2)))

/-- The ssh block of the loop body, lines 583 to 638: the hostname comes from
`tokens.back()`, the port from the token after `-p` through an unguarded
`std::stoi`, whose exception no handler inside the loop catches. -/
def ssh_preflight (w : World) (tokens : List Str) (stdin : List Str) : Preflight :=
  match tokens.getLast? with
  | none => ⟨[], some .undefined, stdin⟩
  | some last =>
      emit (.is_valid_hostname (extract_hostname last)
          (w.is_valid_hostname (extract_hostname last)))
        (if w.is_valid_hostname (extract_hostname last) then
          match token_after_p tokens with
          | none => ping_step w (extract_hostname last) 22 stdin
          | some port_token =>
              match stoi port_token with
              | .value ssh_port => ping_step w (extract_hostname last) ssh_port stdin
              | .invalid_argument => ⟨[], some (.fatal "stoi".toList), stdin⟩
              | .out_of_range => ⟨[], some (.fatal "stoi".toList), stdin⟩
        else
          emit (.cerr .invalid_hostname) ⟨[], some .next, stdin⟩)

/-- The argument check and the hand-off, lines 640 to 658 of the source. The
`strerror` text that ends the fork diagnostic is left out. -/
def gate_and_execute (config : Config) (w : World) (command : Str) (tokens : List Str)
    (stdin : List Str) : Result :=
  if tokens.all (fun arg => is_safe_argument arg command config.max_arg_length) then
    match w.execute_command command tokens with
    | .ran => emit (.execute_command command tokens .ran) ⟨[], .next, stdin⟩
    | .fork_failed =>
        emit (.execute_command command tokens .fork_failed)
          (emit (.cerr (.error_executing "Fork failed: ".toList)) ⟨[], .next, stdin⟩)
  else
    emit (.cerr .invalid_or_unsafe_arguments) ⟨[], .next, stdin⟩

/-- The part of the loop body that follows the whitelist check, lines 583 to
658: the ssh block when the command is `ssh`, then the argument check and the
hand-off unless the block ended the pass. -/
def preflight_then_gate (config : Config) (w : World) (command : Str) (tokens : List Str)
    (stdin : List Str) : Result :=
  if command = "ssh".toList then
    match (ssh_preflight w tokens stdin).outcome with
    | some o => ⟨(ssh_preflight w tokens stdin).events, o, (ssh_preflight w tokens stdin).stdin⟩
    | none =>
        ⟨(ssh_preflight w tokens stdin).events
            ++ (gate_and_execute config w command tokens (ssh_preflight w tokens stdin).stdin).events,
          (gate_and_execute config w command tokens (ssh_preflight w tokens stdin).stdin).outcome,
          (gate_and_execute config w command tokens (ssh_preflight w tokens stdin).stdin).stdin⟩
  else gate_and_execute config w command tokens stdin

/-- The body of the session loop for one line read by `std::getline`, lines
549 to 658 of `main`. `stdin` is what is still pending on standard input. -/
def process_line (config : Config) (w : World) (line : Str) (stdin : List Str) : Result :=
  let input := sanitize_input line
  if input = [] then ⟨[], .next, stdin⟩
  else if input = "exit".toList then ⟨[], .exit, stdin⟩
  else if input.length > to_size_t (int_mul config.max_arg_length config.max_args) then
    emit (.cerr .input_too_long) ⟨[], .next, stdin⟩
  else
    match tokenize input with
    | [] => ⟨[], .next, stdin⟩
    | command :: tokens =>
        if (command :: tokens).length > to_size_t config.max_args then
          emit (.cerr .too_many_arguments) ⟨[], .next, stdin⟩
        else if !is_allowed_command command then
          emit (.cerr .command_not_allowed) ⟨[], .next, stdin⟩
        else preflight_then_gate config w command tokens stdin

/-- How the session loop ends: `std::getline` fails at end of input, the line
`exit`, an exception that reaches the handler around the loop (`main` prints
`Fatal error` and returns 1), undefined behaviour, or the model runs out of
fuel. -/
inductive LoopEnd where
  | end_of_input
  | exit
  | fatal : Str → LoopEnd
  | undefined
  | out_of_fuel
deriving DecidableEq

/-- The session loop `while (g_running)`; `g_running` is never cleared. The
world of the `i`-th pass is `ws i`. -/
def session_loop (config : Config) (ws : Nat → World) : Nat → Nat → List Str →
    List Event × LoopEnd
  | 0, _, _ => ([], .out_of_fuel)
  | _ + 1, _, [] => ([.prompt], .end_of_input)
  | fuel + 1, i, line :: rest =>
      match (process_line config (ws i) line rest).outcome with
      | .next =>
          (.prompt :: (process_line config (ws i) line rest).events
              ++ (session_loop config ws fuel (i + 1)
                    (process_line config (ws i) line rest).stdin).1,
            (session_loop config ws fuel (i + 1) (process_line config (ws i) line rest).stdin).2)
      | .exit => (.prompt :: (process_line config (ws i) line rest).events, .exit)
      | .fatal what => (.prompt :: (process_line config (ws i) line rest).events, .fatal what)
      | .undefined => (.prompt :: (process_line config (ws i) line rest).events, .undefined)

/-- The session of `main` on the lines `stdin`: each pass consumes at least one
line, so `stdin.length + 1` passes are enough. -/
def run_session (config : Config) (ws : Nat → World) (stdin : List Str) :
    List Event × LoopEnd :=
  session_loop config ws (stdin.length + 1) 0 stdin

/-! ## The PTY relay loop of `execute_command` -/

/-- The return of a `read` on a ready descriptor: some bytes, or a count that
is zero or negative. -/
inductive ReadResult where
  | bytes : Str → ReadResult
  | closed : ReadResult
deriving DecidableEq

/-- The return of `select` in one pass of the relay loop: `EINTR`, another
error, zero descriptors (the one-second timeout), or a ready set, given by
what the `read` on standard input and on the master returns when the
descriptor is in the set. -/
inductive SelectResult where
  | interrupted : SelectResult
  | failed : SelectResult
  | timed_out : SelectResult
  | ready : Option ReadResult → Option ReadResult → SelectResult
deriving DecidableEq

/-- One pass of the relay loop: the wall clock `time(NULL)` during the pass
and what `select` returned. -/
structure Pass where
  now : Int
  select : SelectResult
deriving DecidableEq

/-- What the parent does in the relay loop. -/
inductive RelayEvent where
  | write_master : Str → RelayEvent
  | write_stdout : Str → RelayEvent
  | sigterm : RelayEvent
deriving DecidableEq

/-- How the relay loop stands after the passes given: left by `break`, left
after the timeout, or still running. -/
inductive RelayEnd where
  | stopped
  | timed_out
  | running
deriving DecidableEq

/-- The handling of the master descriptor in a pass, lines 446 to 451. -/
def relay_master (master : Option ReadResult) (rest : List RelayEvent × RelayEnd) :
    List RelayEvent × RelayEnd :=
  match master with
  | none => rest
  | some .closed => ([], .stopped)
  | some (.bytes data) => (.write_stdout data :: rest.1, rest.2)

/-- The parent loop of `execute_command`, lines 414 to 452, over the passes
that the environment supplies; `start_time` is the `time(NULL)` taken before
the loop. -/
def relay_loop (command_timeout : Int) (start_time : Int) :
    List Pass → List RelayEvent × RelayEnd
  | [] => ([], .running)
  | p :: ps =>
      match p.select with
      | .interrupted => relay_loop command_timeout start_time ps
      | .failed => ([], .stopped)
      | .timed_out =>
          if p.now - start_time > command_timeout then ([.sigterm], .timed_out)
          else relay_loop command_timeout start_time ps
      | .ready stdin_read master_read =>
          match stdin_read with
          | some .closed => ([], .stopped)
          | some (.bytes data) =>
              (.write_master data ::
                  (relay_master master_read (relay_loop command_timeout start_time ps)).1,
                (relay_master master_read (relay_loop command_timeout start_time ps)).2)
          | none => relay_master master_read (relay_loop command_timeout start_time ps)

/-! ## Definitions used to state the properties -/

/-- The permitted alphabet of the sanitizer, written out: the ASCII letters,
the ASCII digits, space, `-`, `.`, `@`, `_` and `/`. -/
def permitted_alphabet : Str :=
  "ABCDEFGHIJKLMNOPQRSTUVWXYZabcdefghijklmnopqrstuvwxyz0123456789 -.@_/".toList

/-- The ssh target as the data model words it: the substring after the last
`@` if the token has one, else the full token. -/
def spec_ssh_target (t : Str) : Str :=
  if '@' ∈ t then (t.reverse.takeWhile (fun c => c != '@')).reverse else t

/-- A world in which every probe succeeds: the name resolves, the host
answers the ping, the port is open, the host key is known, and `forkpty`
succeeds. -/
def reachable_world : World :=
  { is_valid_hostname := fun _ => true
    ping_host := fun _ => .exit_zero
    is_port_open := fun _ _ => true
    check_ssh_key := fun _ => .known
    add_ssh_key := fun _ => .stored
    execute_command := fun _ _ => .ran }

/-- A configuration whose `MaxArgLength` is negative; `load_config` accepts it. -/
def negative_length_config : Config := { default_config with max_arg_length := -1 }

/-- A configuration that admits three tokens of at most twenty characters. -/
def tight_config : Config := { default_config with max_args := 3, max_arg_length := 20 }

/-- The hostname that an event hands to one of the `popen`-based helpers
`ping_host`, `check_ssh_key` and `add_ssh_key`. -/
def Event.popen_hostname : Event → Option Str
  | .ping_host hostname _ => some hostname
  | .check_ssh_key hostname _ => some hostname
  | .add_ssh_key hostname _ => some hostname
  | _ => none

/-- The characters a hostname may be made of: the ASCII letters, the ASCII
digits, `-`, `.`, `@`, `_` and `/`. -/
def hostname_alphabet : Str :=
  "ABCDEFGHIJKLMNOPQRSTUVWXYZabcdefghijklmnopqrstuvwxyz0123456789-.@_/".toList

/-- The characters that a shell treats specially, by code: space, tab, newline,
the two quotes, `;`, `|`, `&`, `$`, the backtick, `<`, `>`, the parentheses,
`*`, `?`, `!`, `#`, `~`, the backslash, the braces and the brackets. -/
def shell_metacharacters : Str :=
  [32, 9, 10, 39, 34, 59, 124, 38, 36, 96, 60, 62, 40, 41, 42, 63, 33, 35, 126, 92, 123, 125,
    91, 93].map Char.ofNat

/-- A world like `reachable_world` whose resolver, as `inet_pton` and
`getaddrinfo` do, fails on the empty name. -/
def resolving_world : World :=
  { reachable_world with is_valid_hostname := fun hostname => !hostname.isEmpty }

/-- The line of scenario S2. -/
def forwarding_line : Str := "ssh -L 8080:x:22 user@1.2.3.4".toList

/-- The arguments of the line of scenario S2 after sanitizing and splitting. -/
def forwarding_args : List Str := ["-L".toList, "8080x22".toList, "user@1.2.3.4".toList]

/-! ## Soundness of the matcher -/

namespace Regex

theorem nullable_iff (r : Regex) : r.nullable = true ↔ Matches r [] := by
  induction r with
  | never => simp [nullable, Matches]
  | eps => simp [nullable, Matches]
  | cls p => simp [nullable, Matches]
  | alt a b iha ihb => simp [nullable, Matches, iha, ihb]
  | cat a b iha ihb =>
      simp only [nullable, Matches, Bool.and_eq_true, iha, ihb]
      constructor
      · rintro ⟨ha, hb⟩
        exact ⟨[], [], rfl, ha, hb⟩
      · rintro ⟨u, v, huv, ha, hb⟩
        have h := List.append_eq_nil.mp huv.symm
        rw [h.1] at ha
        rw [h.2] at hb
        exact ⟨ha, hb⟩
  | star a _ =>
      simp only [nullable, Matches, true_iff]
      exact ⟨[], rfl, by simp⟩

theorem deriv_iff (r : Regex) (c : Char) (s : Str) :
    Matches (r.deriv c) s ↔ Matches r (c :: s) := by
  induction r generalizing s with
  | never => simp [deriv, Matches]
  | eps => simp [deriv, Matches]
  | cls p =>
      by_cases hp : p c = true
      · simp only [deriv, hp, if_true, Matches]
        constructor
        · rintro rfl
          exact ⟨c, rfl, hp⟩
        · rintro ⟨d, hd, _⟩
          simpa using (List.cons.inj hd).2
      · simp only [deriv, hp, Matches]
        constructor
        · intro h
          simp [Matches] at h
        · rintro ⟨d, hd, hpd⟩
          have hcd : c = d := (List.cons.inj hd).1
          rw [hcd] at hp
          exact absurd hpd hp
  | alt a b iha ihb => simp [deriv, Matches, iha, ihb]
  | cat a b iha ihb =>
      have key : (∃ u v, s = u ++ v ∧ Matches (a.deriv c) u ∧ Matches b v) ∨
            (Matches a [] ∧ Matches b (c :: s)) ↔
          ∃ u v, c :: s = u ++ v ∧ Matches a u ∧ Matches b v := by
        constructor
        · rintro (⟨u, v, rfl, hu, hv⟩ | ⟨ha, hb⟩)
          · exact ⟨c :: u, v, rfl, (iha u).mp hu, hv⟩
          · exact ⟨[], c :: s, rfl, ha, hb⟩
        · rintro ⟨u, v, huv, hu, hv⟩
          cases u with
          | nil =>
              right
              simp only [List.nil_append] at huv
              rw [← huv] at hv
              exact ⟨hu, hv⟩
          | cons d u =>
              left
              simp only [List.cons_append, List.cons.injEq] at huv
              obtain ⟨rfl, rfl⟩ := huv
              exact ⟨u, v, rfl, (iha u).mpr hu, hv⟩
      by_cases hn : a.nullable = true
      · simp only [deriv, hn, if_true, Matches, ihb]
        rw [← key]
        simp [(nullable_iff a).mp hn]
      · simp only [deriv, hn, Matches]
        rw [← key]
        have hna : ¬ Matches a [] := fun h => hn ((nullable_iff a).mpr h)
        simp [hna]
  | star a iha =>
      simp only [deriv, Matches]
      constructor
      · rintro ⟨u, v, rfl, hu, L, rfl, hL⟩
        refine ⟨(c :: u) :: L, by simp, ?_⟩
        intro w hw
        rcases List.mem_cons.mp hw with rfl | hw
        · exact ⟨by simp, (iha u).mp hu⟩
        · exact hL w hw
      · rintro ⟨L, hs, hL⟩
        cases L with
        | nil => simp at hs
        | cons w L =>
            have hw := hL w (List.mem_cons_self w L)
            cases w with
            | nil => exact absurd rfl hw.1
            | cons d w =>
                simp only [List.flatten_cons, List.cons_append, List.cons.injEq] at hs
                obtain ⟨rfl, rfl⟩ := hs
                exact ⟨w, L.flatten, rfl, (iha w).mpr hw.2, L, rfl,
                  fun x hx => hL x (List.mem_cons_of_mem _ hx)⟩

end Regex

/-- The matcher decides the language of the expression. -/
theorem regex_match_iff (s : Str) (r : Regex) : regex_match s r = true ↔ Regex.Matches r s := by
  induction s generalizing r with
  | nil => simpa [regex_match] using Regex.nullable_iff r
  | cons c cs ih =>
      rw [regex_match, ih, Regex.deriv_iff]

/-! ## The sanitizer is a filter -/

theorem sanitize_fold (acc x : Str) :
    x.foldl (fun sanitized c => if sanitize_keep c then sanitized ++ [c] else sanitized) acc
      = acc ++ x.filter sanitize_keep := by
  induction x generalizing acc with
  | nil => simp
  | cons c cs ih =>
      by_cases hc : sanitize_keep c = true
      · simp [List.foldl_cons, ih, hc, List.filter_cons]
      · simp [List.foldl_cons, ih, hc, List.filter_cons]

theorem sanitize_input_eq_filter (x : Str) : sanitize_input x = x.filter sanitize_keep := by
  simp [sanitize_input, sanitize_fold]

theorem ascii_keep_table :
    ∀ n : Fin 128, sanitize_keep (Char.ofNat n) = permitted_alphabet.contains (Char.ofNat n) := by
  decide

theorem keep_is_ascii (c : Char) (h : sanitize_keep c = true) : c.toNat < 128 := by
  simp only [sanitize_keep, isalnum, isalpha, isupper, islower, isdigit, Bool.or_eq_true,
    decide_eq_true_eq, beq_iff_eq] at h
  rcases h with ((((((h | h) | h) | h) | h) | h) | h)
  · omega
  all_goals (subst h; decide)

theorem alphabet_is_ascii : ∀ c ∈ permitted_alphabet, c.toNat < 128 := by decide

/-- The predicate of the source and the written-out alphabet agree on every
character. -/
theorem sanitize_keep_eq (c : Char) : sanitize_keep c = permitted_alphabet.contains c := by
  by_cases h : c.toNat < 128
  · have := ascii_keep_table ⟨c.toNat, h⟩
    simpa [Char.ofNat_toNat] using this
  · have h1 : sanitize_keep c = false := by
      cases hk : sanitize_keep c with
      | false => rfl
      | true => exact absurd (keep_is_ascii c hk) h
    have h2 : permitted_alphabet.contains c = false := by
      cases hk : permitted_alphabet.contains c with
      | false => rfl
      | true => exact absurd (alphabet_is_ascii c (by simpa using hk)) h
    rw [h1, h2]

/-! ## Traces of the loop body -/

@[simp] theorem emit_events {α : Type} (e : Event) (r : Step α) :
    (emit e r).events = e :: r.events := rfl

@[simp] theorem emit_outcome {α : Type} (e : Event) (r : Step α) :
    (emit e r).outcome = r.outcome := rfl

@[simp] theorem emit_stdin {α : Type} (e : Event) (r : Step α) :
    (emit e r).stdin = r.stdin := rfl

theorem getline_length (stdin : List Str) : (getline stdin).2.length ≤ stdin.length := by
  cases stdin <;> simp [getline]

theorem key_step_no_execute (w : World) (hostname : Str) (stdin : List Str) :
    ∀ e ∈ (key_step w hostname stdin).events, e.is_execute = false := by
  unfold key_step
  (repeat' split) <;> simp [Event.is_execute]

theorem port_step_no_execute (w : World) (hostname : Str) (port : Int) (stdin : List Str) :
    ∀ e ∈ (port_step w hostname port stdin).events, e.is_execute = false := by
  unfold port_step
  (repeat' split) <;> simp [Event.is_execute] <;> exact key_step_no_execute _ _ _

theorem ping_step_no_execute (w : World) (hostname : Str) (port : Int) (stdin : List Str) :
    ∀ e ∈ (ping_step w hostname port stdin).events, e.is_execute = false := by
  unfold ping_step
  (repeat' split) <;> simp [Event.is_execute] <;> exact port_step_no_execute _ _ _ _

/-- The ssh block never calls `execute_command`. -/
theorem ssh_preflight_no_execute (w : World) (tokens : List Str) (stdin : List Str) :
    ∀ e ∈ (ssh_preflight w tokens stdin).events, e.is_execute = false := by
  unfold ssh_preflight
  (repeat' split) <;> simp [Event.is_execute] <;> exact ping_step_no_execute _ _ _ _

theorem key_step_stdin (w : World) (hostname : Str) (stdin : List Str) :
    (key_step w hostname stdin).stdin.length ≤ stdin.length := by
  unfold key_step
  (repeat' split) <;> simp [getline_length]

theorem port_step_stdin (w : World) (hostname : Str) (port : Int) (stdin : List Str) :
    (port_step w hostname port stdin).stdin.length ≤ stdin.length := by
  unfold port_step
  (repeat' split) <;> simp [getline_length, key_step_stdin]
  exact le_trans (key_step_stdin _ _ _) (getline_length _)

theorem ping_step_stdin (w : World) (hostname : Str) (port : Int) (stdin : List Str) :
    (ping_step w hostname port stdin).stdin.length ≤ stdin.length := by
  unfold ping_step
  (repeat' split) <;> simp [getline_length, port_step_stdin]
  exact le_trans (port_step_stdin _ _ _ _) (getline_length _)

theorem ssh_preflight_stdin (w : World) (tokens : List Str) (stdin : List Str) :
    (ssh_preflight w tokens stdin).stdin.length ≤ stdin.length := by
  unfold ssh_preflight
  (repeat' split) <;> simp [ping_step_stdin]

/-- The first step of the ssh block on a non-empty argument list is the
resolution of the hostname taken from the last argument. -/
theorem ssh_preflight_head (w : World) (tokens : List Str) (stdin : List Str) (last : Str)
    (hlast : tokens.getLast? = some last) :
    (ssh_preflight w tokens stdin).events.head? =
      some (.is_valid_hostname (extract_hostname last)
        (w.is_valid_hostname (extract_hostname last))) := by
  unfold ssh_preflight
  rw [hlast]
  simp

theorem gate_stdin (config : Config) (w : World) (command : Str) (tokens : List Str)
    (stdin : List Str) : (gate_and_execute config w command tokens stdin).stdin = stdin := by
  unfold gate_and_execute
  (repeat' split) <;> simp

/-- A call of `execute_command` in the trace of the argument check is the call
for `command` and `tokens`, and every token passed `is_safe_argument`. -/
theorem gate_execute (config : Config) (w : World) (command : Str) (tokens : List Str)
    (stdin : List Str) (e : Event)
    (he : e ∈ (gate_and_execute config w command tokens stdin).events)
    (hx : e.is_execute = true) :
    tokens.all (fun arg => is_safe_argument arg command config.max_arg_length) = true ∧
      e = .execute_command command tokens (w.execute_command command tokens) := by
  unfold gate_and_execute at he
  split at he
  · rename_i hall
    refine ⟨hall, ?_⟩
    split at he
    · rename_i hr
      simp at he
      rw [hr]
      exact he
    · rename_i hr
      simp at he
      rcases he with rfl | rfl
      · rw [hr]
      · simp [Event.is_execute] at hx
  · simp at he
    subst he
    simp [Event.is_execute] at hx

/-- The argument check makes no pre-flight step. -/
theorem gate_no_preflight (config : Config) (w : World) (command : Str) (tokens : List Str)
    (stdin : List Str) :
    ∀ e ∈ (gate_and_execute config w command tokens stdin).events, e.is_preflight = false := by
  unfold gate_and_execute
  (repeat' split) <;> simp [Event.is_preflight]

/-- When an argument fails `is_safe_argument`, the argument check only prints
its diagnostic. -/
theorem gate_reject (config : Config) (w : World) (command : Str) (tokens : List Str)
    (stdin : List Str)
    (h : tokens.all (fun arg => is_safe_argument arg command config.max_arg_length) = false) :
    gate_and_execute config w command tokens stdin =
      ⟨[.cerr .invalid_or_unsafe_arguments], .next, stdin⟩ := by
  unfold gate_and_execute
  rw [h]
  rfl

theorem preflight_then_gate_stdin (config : Config) (w : World) (command : Str)
    (tokens : List Str) (stdin : List Str) :
    (preflight_then_gate config w command tokens stdin).stdin.length ≤ stdin.length := by
  unfold preflight_then_gate
  (repeat' split) <;> simp [gate_stdin, ssh_preflight_stdin]

/-- A call of `execute_command` after the whitelist check is the call for the
command and its tokens, all of which passed `is_safe_argument`. -/
theorem preflight_then_gate_execute (config : Config) (w : World) (command : Str)
    (tokens : List Str) (stdin : List Str) (e : Event)
    (he : e ∈ (preflight_then_gate config w command tokens stdin).events)
    (hx : e.is_execute = true) :
    tokens.all (fun arg => is_safe_argument arg command config.max_arg_length) = true ∧
      e = .execute_command command tokens (w.execute_command command tokens) := by
  unfold preflight_then_gate at he
  split at he
  · split at he
    · have := ssh_preflight_no_execute w tokens stdin e he
      rw [this] at hx
      exact absurd hx (by simp)
    · simp only [List.mem_append] at he
      rcases he with he | he
      · have := ssh_preflight_no_execute w tokens stdin e he
        rw [this] at hx
        exact absurd hx (by simp)
      · exact gate_execute config w command tokens _ e he hx
  · exact gate_execute config w command tokens _ e he hx

/-- A pre-flight step after the whitelist check happens only for `ssh`. -/
theorem preflight_then_gate_preflight (config : Config) (w : World) (command : Str)
    (tokens : List Str) (stdin : List Str) (e : Event)
    (he : e ∈ (preflight_then_gate config w command tokens stdin).events)
    (hx : e.is_preflight = true) : command = "ssh".toList := by
  unfold preflight_then_gate at he
  split at he
  · assumption
  · have := gate_no_preflight config w command tokens stdin e he
    rw [this] at hx
    exact absurd hx (by simp)

/-- Every event of a pass that is a call of `execute_command` or a pre-flight
step comes after the bounds checks and the whitelist check have passed. -/
theorem process_line_reaches (config : Config) (w : World) (line : Str) (stdin : List Str)
    (e : Event) (he : e ∈ (process_line config w line stdin).events)
    (hx : e.is_execute = true ∨ e.is_preflight = true) :
    ∃ command args, tokenize (sanitize_input line) = command :: args ∧
      ¬ (sanitize_input line).length > to_size_t (int_mul config.max_arg_length config.max_args) ∧
      ¬ (command :: args).length > to_size_t config.max_args ∧
      is_allowed_command command = true ∧
      e ∈ (preflight_then_gate config w command args stdin).events := by
  unfold process_line at he
  simp only at he
  split at he
  · simp at he
  · split at he
    · simp at he
    · split at he
      · simp at he
        subst he
        simp [Event.is_execute, Event.is_preflight] at hx
      · rename_i hlong
        split at he
        · simp at he
        · rename_i command args htok
          split at he
          · simp at he
            subst he
            simp [Event.is_execute, Event.is_preflight] at hx
          · rename_i hmany
            split at he
            · simp at he
              subst he
              simp [Event.is_execute, Event.is_preflight] at hx
            · rename_i hallow
              refine ⟨command, args, htok, hlong, hmany, ?_, he⟩
              simpa using hallow

theorem process_line_stdin (config : Config) (w : World) (line : Str) (stdin : List Str) :
    (process_line config w line stdin).stdin.length ≤ stdin.length := by
  unfold process_line
  simp only
  (repeat' split) <;> simp [preflight_then_gate_stdin]

/-- Every event of a session is a prompt or an event of some pass. -/
theorem session_loop_events (config : Config) (ws : Nat → World) :
    ∀ (fuel i : Nat) (stdin : List Str) (e : Event),
      e ∈ (session_loop config ws fuel i stdin).1 →
      e = .prompt ∨ ∃ j line rest, e ∈ (process_line config (ws j) line rest).events := by
  intro fuel
  induction fuel with
  | zero => intro i stdin e he; simp [session_loop] at he
  | succ fuel ih =>
      intro i stdin e he
      cases stdin with
      | nil =>
          simp [session_loop] at he
          exact Or.inl he
      | cons line rest =>
          unfold session_loop at he
          split at he
          · simp only [List.cons_append, List.mem_cons, List.mem_append] at he
            rcases he with he | he | he
            · exact Or.inl he
            · exact Or.inr ⟨i, line, rest, he⟩
            · exact ih _ _ e he
          all_goals
            simp only [List.mem_cons] at he
            rcases he with he | he
            · exact Or.inl he
            · exact Or.inr ⟨i, line, rest, he⟩

/-- The session never runs out of fuel: each pass consumes the line it reads. -/
theorem session_loop_total (config : Config) (ws : Nat → World) :
    ∀ (fuel i : Nat) (stdin : List Str), stdin.length < fuel →
      (session_loop config ws fuel i stdin).2 ≠ .out_of_fuel := by
  intro fuel
  induction fuel with
  | zero => intro i stdin h; omega
  | succ fuel ih =>
      intro i stdin h
      cases stdin with
      | nil => simp [session_loop]
      | cons line rest =>
          unfold session_loop
          split
          · apply ih
            have := process_line_stdin config (ws i) line rest
            simp only [List.length_cons] at h
            omega
          all_goals simp

/-- The model of a session always runs to an end of the loop. -/
theorem run_session_total (config : Config) (ws : Nat → World) (stdin : List Str) :
    (run_session config ws stdin).2 ≠ .out_of_fuel :=
  session_loop_total config ws _ 0 stdin (Nat.lt_succ_self _)

/-! ## Integer conversions -/

theorem to_size_t_of_nonneg (x : Int) (h0 : 0 ≤ x) (h1 : x ≤ INT_MAX) :
    (to_size_t x : Int) = x := by
  unfold to_size_t
  unfold INT_MAX at h1
  rw [Int.emod_eq_of_lt h0 (by omega)]
  exact Int.toNat_of_nonneg h0

theorem int_mul_exact (a b : Int) (h0 : 0 ≤ a * b) (h1 : a * b ≤ INT_MAX) :
    int_mul a b = a * b := by
  unfold int_mul wrap_int
  unfold INT_MAX at h1
  rw [Int.emod_eq_of_lt (by omega) (by omega)]
  omega

theorem sanitize_input_length (line : Str) : (sanitize_input line).length ≤ line.length := by
  rw [sanitize_input_eq_filter]
  exact List.length_filter_le _ _

/-! ## The argument grammar -/

/-- What `is_safe_argument` establishes when `max_arg_length` is a
non-negative `int`: the length bound, and the grammar of the command. -/
theorem is_safe_argument_sound (arg command : Str) (max_arg_length : Int)
    (h0 : 0 ≤ max_arg_length) (h1 : max_arg_length ≤ INT_MAX)
    (h : is_safe_argument arg command max_arg_length = true) :
    (arg.length : Int) ≤ max_arg_length ∧
      ((command = "ssh".toList ∧ starts_with "-L".toList arg = false ∧
          starts_with "-R".toList arg = false ∧ starts_with "-D".toList arg = false ∧
          Regex.Matches ssh_arg_regex arg) ∨
        (command = "ping".toList ∧ Regex.Matches ping_arg_regex arg) ∨
        (command = "tracepath".toList ∧ Regex.Matches tracepath_arg_regex arg)) := by
  have hlen : ∀ n : Nat, n ≤ to_size_t max_arg_length → (n : Int) ≤ max_arg_length := by
    intro n hn
    rw [← to_size_t_of_nonneg max_arg_length h0 h1]
    exact_mod_cast hn
  unfold is_safe_argument at h
  split at h
  · rename_i hssh
    simp only [Bool.and_eq_true, decide_eq_true_eq] at h
    refine ⟨hlen _ h.2, Or.inl ⟨hssh, ?_⟩⟩
    have hs := h.1
    unfold is_safe_ssh_argument at hs
    split at hs
    · exact absurd hs (by simp)
    · rename_i hforbidden
      simp only [forbidden_options, List.any_cons, List.any_nil, Bool.or_false,
        Bool.or_eq_true, not_or, Bool.not_eq_true] at hforbidden
      exact ⟨hforbidden.1, hforbidden.2.1, hforbidden.2.2, (regex_match_iff _ _).mp hs⟩
  · rename_i hssh
    by_cases hping : command = "ping".toList
    · subst hping
      have hlook : command_arg_patterns.lookup "ping".toList = some ping_arg_regex := by
        simp [command_arg_patterns, List.lookup]
      rw [hlook] at h
      simp only [Bool.and_eq_true, decide_eq_true_eq] at h
      exact ⟨hlen _ h.2, Or.inr (Or.inl ⟨rfl, (regex_match_iff _ _).mp h.1⟩)⟩
    · by_cases htrace : command = "tracepath".toList
      · subst htrace
        have hlook : command_arg_patterns.lookup "tracepath".toList =
            some tracepath_arg_regex := by
          simp [command_arg_patterns, List.lookup]
        rw [hlook] at h
        simp only [Bool.and_eq_true, decide_eq_true_eq] at h
        exact ⟨hlen _ h.2, Or.inr (Or.inr ⟨rfl, (regex_match_iff _ _).mp h.1⟩)⟩
      · have hlook : command_arg_patterns.lookup command = none := by
          have h1 : (command == "ping".toList) = false := by simpa using hping
          have h2 : (command == "tracepath".toList) = false := by simpa using htrace
          simp only [command_arg_patterns, List.lookup, h1, h2]
        rw [hlook] at h
        exact absurd h (by simp)

theorem is_allowed_command_iff (command : Str) :
    is_allowed_command command = true ↔
      command = "ping".toList ∨ command = "tracepath".toList ∨ command = "ssh".toList := by
  simp [is_allowed_command, allowed_commands]

theorem popen_call_is_preflight (e : Event) (h : e.is_popen_call = true) :
    e.is_preflight = true := by
  cases e <;> simp_all [Event.is_popen_call, Event.is_preflight]

theorem reaches_subprocess_cases (e : Event) (h : e.reaches_subprocess ≠ false) :
    e.is_execute = true ∨ e.is_preflight = true := by
  simp only [Event.reaches_subprocess, ne_eq, Bool.or_eq_false_iff, not_and,
    Bool.not_eq_false] at h
  by_cases hx : e.is_execute = true
  · exact Or.inl hx
  · exact Or.inr (popen_call_is_preflight e (h (by simpa using hx)))

/-! ## The whitelist (C1) -/

/-- C1 (amended). For every verb `v` that is not one of `ping`, `tracepath`,
`ssh`, and for every input line whose sanitized form begins with `v` (its
first whitespace-separated token is `v`), processing that line reaches neither
`execute_command` nor any `popen`-based pre-flight helper. -/
theorem whitelist_closure (config : Config) (w : World) (v line : Str) (stdin : List Str)
    (hv : v ≠ "ping".toList ∧ v ≠ "tracepath".toList ∧ v ≠ "ssh".toList)
    (hline : (tokenize (sanitize_input line)).head? = some v) :
    ∀ e ∈ (process_line config w line stdin).events, e.reaches_subprocess = false := by
  intro e he
  by_contra hne
  obtain ⟨command, args, htok, -, -, hallow, -⟩ :=
    process_line_reaches config w line stdin e he (reaches_subprocess_cases e hne)
  rw [htok] at hline
  simp only [List.head?_cons, Option.some.injEq] at hline
  subst hline
  rcases (is_allowed_command_iff command).mp hallow with h | h | h
  · exact hv.1 h
  · exact hv.2.1 h
  · exact hv.2.2 h

/-- The whitelist theorem at the line `rm -rf /` of scenario S1. -/
theorem whitelist_closure_witness :
    ("rm".toList ≠ "ping".toList ∧ "rm".toList ≠ "tracepath".toList ∧
        "rm".toList ≠ "ssh".toList) ∧
      (tokenize (sanitize_input "rm -rf /".toList)).head? = some "rm".toList ∧
      ∀ e ∈ (process_line default_config reachable_world "rm -rf /".toList []).events,
        e.reaches_subprocess = false :=
  ⟨by decide, by decide,
    whitelist_closure default_config reachable_world "rm".toList "rm -rf /".toList []
      (by decide) (by decide)⟩

/-- C1, as stated, fails on a raw line: `s$sh 1.2.3.4` begins with the word
`s$sh`, which is not an allowed command, yet the sanitizer turns the line into
`ssh 1.2.3.4` and child processes are created. -/
theorem whitelist_raw_line_spawns :
    starts_with "s$sh".toList "s$sh 1.2.3.4".toList = true ∧
      (tokenize "s$sh 1.2.3.4".toList).head? = some "s$sh".toList ∧
      is_allowed_command "s$sh".toList = false ∧
      (∃ e ∈ (process_line default_config reachable_world "s$sh 1.2.3.4".toList []).events,
        e.child_created = true) ∧
      Event.execute_command "ssh".toList ["1.2.3.4".toList] .ran ∈
        (process_line default_config reachable_world "s$sh 1.2.3.4".toList []).events := by
  decide

/-! ## Port forwarding (C2) -/

/-- C2 (amended). For every input line whose verb is `ssh` and whose argument
list contains a token starting with `-L`, `-R` or `-D`, processing that line
never calls `execute_command`, whatever the probes return and the operator
answers; the pre-flight subprocesses may still run. -/
theorem no_forwarding_execute (config : Config) (w : World) (line : Str) (stdin : List Str)
    (args : List Str)
    (hverb : tokenize (sanitize_input line) = "ssh".toList :: args)
    (hfwd : ∃ t ∈ args, starts_with "-L".toList t = true ∨ starts_with "-R".toList t = true ∨
      starts_with "-D".toList t = true) :
    ∀ e ∈ (process_line config w line stdin).events, e.is_execute = false := by
  intro e he
  by_contra hne
  have hx : e.is_execute = true := by simpa using hne
  obtain ⟨command, args', htok, -, -, -, hmem⟩ :=
    process_line_reaches config w line stdin e he (Or.inl hx)
  rw [hverb] at htok
  obtain ⟨rfl, rfl⟩ := List.cons.inj htok
  obtain ⟨hall, -⟩ := preflight_then_gate_execute config w _ _ stdin e hmem hx
  obtain ⟨t, ht, hstart⟩ := hfwd
  have hsafe := List.all_eq_true.mp hall t ht
  simp only [is_safe_argument, if_true, Bool.and_eq_true] at hsafe
  have hs := hsafe.1
  unfold is_safe_ssh_argument at hs
  split at hs
  · exact absurd hs (by simp)
  · rename_i hforbidden
    apply hforbidden
    simp only [forbidden_options, List.any_cons, List.any_nil, Bool.or_false, Bool.or_eq_true]
    rcases hstart with h | h | h
    · exact Or.inl h
    · exact Or.inr (Or.inl h)
    · exact Or.inr (Or.inr h)

/-- The port-forwarding theorem at the line of scenario S2. -/
theorem no_forwarding_execute_witness :
    tokenize (sanitize_input "ssh -L 8080:x:22 user@1.2.3.4".toList) =
        "ssh".toList :: ["-L".toList, "8080x22".toList, "user@1.2.3.4".toList] ∧
      ∀ e ∈ (process_line default_config reachable_world
          "ssh -L 8080:x:22 user@1.2.3.4".toList []).events, e.is_execute = false :=
  ⟨by decide,
    no_forwarding_execute default_config reachable_world
      "ssh -L 8080:x:22 user@1.2.3.4".toList []
      ["-L".toList, "8080x22".toList, "user@1.2.3.4".toList] (by decide)
      ⟨"-L".toList, by decide, Or.inl (by decide)⟩⟩

/-- C2, as stated, fails: on the line of scenario S2 the ping probe, the
known-host check and their `popen` subprocesses run before the rejection. -/
theorem forwarding_line_spawns_probe :
    tokenize (sanitize_input "ssh -L 8080:x:22 user@1.2.3.4".toList) =
        "ssh".toList :: ["-L".toList, "8080x22".toList, "user@1.2.3.4".toList] ∧
      starts_with "-L".toList "-L".toList = true ∧
      ∃ e ∈ (process_line default_config reachable_world
          "ssh -L 8080:x:22 user@1.2.3.4".toList []).events, e.child_created = true := by
  decide

/-! ## Grammar closure (C3) -/

/-- C3 (amended). For every session and every config whose `max_arg_length` is
a non-negative `int`, if the session loop reaches
`execute_command(verb, args)` then `verb` is `ping`, `tracepath` or `ssh`, and
every element of `args` is in the language of that verb's pattern (for `ssh`:
it does not begin with `-L`, `-R` or `-D` and is in the language of the ssh
pattern) and has length at most `max_arg_length`. -/
theorem grammar_closure (config : Config) (ws : Nat → World) (stdin : List Str)
    (command : Str) (args : List Str) (res : ExecResult)
    (h0 : 0 ≤ config.max_arg_length) (h1 : config.max_arg_length ≤ INT_MAX)
    (h : Event.execute_command command args res ∈ (run_session config ws stdin).1) :
    (command = "ping".toList ∧
        ∀ a ∈ args, Regex.Matches ping_arg_regex a ∧ (a.length : Int) ≤ config.max_arg_length) ∨
      (command = "tracepath".toList ∧
        ∀ a ∈ args, Regex.Matches tracepath_arg_regex a ∧
          (a.length : Int) ≤ config.max_arg_length) ∨
      (command = "ssh".toList ∧
        ∀ a ∈ args, starts_with "-L".toList a = false ∧ starts_with "-R".toList a = false ∧
          starts_with "-D".toList a = false ∧ Regex.Matches ssh_arg_regex a ∧
          (a.length : Int) ≤ config.max_arg_length) := by
  rcases session_loop_events config ws _ _ _ _ h with hp | ⟨j, line, rest, he⟩
  · exact absurd hp (by simp)
  · obtain ⟨command', args', -, -, -, hallow, hmem⟩ :=
      process_line_reaches config (ws j) line rest _ he (Or.inl rfl)
    obtain ⟨hall, heq⟩ := preflight_then_gate_execute config (ws j) _ _ rest _ hmem rfl
    simp only [Event.execute_command.injEq] at heq
    obtain ⟨rfl, rfl, -⟩ := heq
    have hsound := fun a (ha : a ∈ args) =>
      is_safe_argument_sound a command config.max_arg_length h0 h1 (List.all_eq_true.mp hall a ha)
    rcases (is_allowed_command_iff command).mp hallow with hc | hc | hc
    · refine Or.inl ⟨hc, fun a ha => ?_⟩
      obtain ⟨hlen, hg⟩ := hsound a ha
      subst hc
      rcases hg with ⟨hk, -⟩ | ⟨-, hm⟩ | ⟨hk, -⟩
      · exact absurd hk (by decide)
      · exact ⟨hm, hlen⟩
      · exact absurd hk (by decide)
    · refine Or.inr (Or.inl ⟨hc, fun a ha => ?_⟩)
      obtain ⟨hlen, hg⟩ := hsound a ha
      subst hc
      rcases hg with ⟨hk, -⟩ | ⟨hk, -⟩ | ⟨-, hm⟩
      · exact absurd hk (by decide)
      · exact absurd hk (by decide)
      · exact ⟨hm, hlen⟩
    · refine Or.inr (Or.inr ⟨hc, fun a ha => ?_⟩)
      obtain ⟨hlen, hg⟩ := hsound a ha
      subst hc
      rcases hg with ⟨-, hL, hR, hD, hm⟩ | ⟨hk, -⟩ | ⟨hk, -⟩
      · exact ⟨hL, hR, hD, hm, hlen⟩
      · exact absurd hk (by decide)
      · exact absurd hk (by decide)

/-- The grammar theorem at a session that runs `ping 8.8.8.8`. -/
theorem grammar_closure_witness :
    (0 ≤ default_config.max_arg_length ∧ default_config.max_arg_length ≤ INT_MAX ∧
        Event.execute_command "ping".toList ["8.8.8.8".toList] .ran ∈
          (run_session default_config (fun _ => reachable_world) ["ping 8.8.8.8".toList]).1) ∧
      (("ping".toList = "ping".toList ∧
          ∀ a ∈ ["8.8.8.8".toList], Regex.Matches ping_arg_regex a ∧
            (a.length : Int) ≤ default_config.max_arg_length) ∨
        ("ping".toList = "tracepath".toList ∧
          ∀ a ∈ ["8.8.8.8".toList], Regex.Matches tracepath_arg_regex a ∧
            (a.length : Int) ≤ default_config.max_arg_length) ∨
        ("ping".toList = "ssh".toList ∧
          ∀ a ∈ ["8.8.8.8".toList], starts_with "-L".toList a = false ∧
            starts_with "-R".toList a = false ∧ starts_with "-D".toList a = false ∧
            Regex.Matches ssh_arg_regex a ∧
            (a.length : Int) ≤ default_config.max_arg_length)) :=
  ⟨⟨by decide, by decide, by decide⟩,
    grammar_closure default_config (fun _ => reachable_world) ["ping 8.8.8.8".toList]
      "ping".toList ["8.8.8.8".toList] .ran (by decide) (by decide) (by decide)⟩

/-- C3, as stated for every config, fails when `max_arg_length` is negative:
the conversion to `size_t` turns `-1` into the largest `size_t`, so
`ping a` is executed although the argument is longer than `max_arg_length`. -/
theorem grammar_closure_fails_for_negative_length :
    Event.execute_command "ping".toList ["a".toList] .ran ∈
        (run_session negative_length_config (fun _ => reachable_world) ["ping a".toList]).1 ∧
      ¬ (("a".toList.length : Int) ≤ negative_length_config.max_arg_length) := by
  decide

/-! ## Bound enforcement (C4) -/

/-- C4. For every input line and every config with positive `max_args` and
`max_arg_length`, if the sanitized line is longer than
`max_args * max_arg_length` characters, or splits into more than `max_args`
tokens, then processing the line reaches no subprocess and makes no pre-flight
step. The hypothesis `hfit` holds for every line the shell can read:
`set_resource_limits` caps the address space at `RLIMIT_AS_BYTES` before the
loop starts, so no `std::string` is longer than that; it also holds whenever
the `int` product of the source does not overflow. -/
theorem bound_enforcement (config : Config) (w : World) (line : Str) (stdin : List Str)
    (hargs : 0 < config.max_args) (hlen : 0 < config.max_arg_length)
    (hint : config.max_args ≤ INT_MAX)
    (hfit : config.max_args * config.max_arg_length ≤ INT_MAX ∨
      line.length ≤ RLIMIT_AS_BYTES)
    (hbound : ((sanitize_input line).length : Int) > config.max_args * config.max_arg_length ∨
      ((tokenize (sanitize_input line)).length : Int) > config.max_args) :
    ∀ e ∈ (process_line config w line stdin).events,
      e.reaches_subprocess = false ∧ e.is_preflight = false := by
  intro e he
  by_contra hne
  have hx : e.is_execute = true ∨ e.is_preflight = true := by
    by_cases hp : e.is_preflight = true
    · exact Or.inr hp
    · have hr : e.reaches_subprocess ≠ false := fun hr => hne ⟨hr, by simpa using hp⟩
      exact reaches_subprocess_cases e hr
  obtain ⟨command, args, htok, hlong, hmany, -, -⟩ :=
    process_line_reaches config w line stdin e he hx
  rcases hbound with hb | hb
  · have hcomm : config.max_arg_length * config.max_args =
        config.max_args * config.max_arg_length := mul_comm _ _
    have hpos : 0 ≤ config.max_arg_length * config.max_args :=
      le_of_lt (Int.mul_pos hlen hargs)
    have hprod : config.max_arg_length * config.max_args ≤ INT_MAX := by
      rcases hfit with hf | hf
      · rw [hcomm]; exact hf
      · have hs := sanitize_input_length line
        have hs' : ((sanitize_input line).length : Int) ≤ (line.length : Int) := by
          exact_mod_cast hs
        have hf' : (line.length : Int) ≤ (RLIMIT_AS_BYTES : Int) := by exact_mod_cast hf
        rw [hcomm]
        unfold INT_MAX
        unfold RLIMIT_AS_BYTES at hf'
        norm_num at hf'
        omega
    have hexact := int_mul_exact _ _ hpos hprod
    have hsize := to_size_t_of_nonneg _ hpos hprod
    rw [hexact] at hlong
    have hle : ((sanitize_input line).length : Int) ≤
        (to_size_t (config.max_arg_length * config.max_args) : Int) := by
      exact_mod_cast Nat.le_of_not_gt hlong
    rw [hsize, hcomm] at hle
    omega
  · have hsize := to_size_t_of_nonneg _ (le_of_lt hargs) hint
    rw [htok] at hb
    have hle : ((command :: args).length : Int) ≤ (to_size_t config.max_args : Int) := by
      exact_mod_cast Nat.le_of_not_gt hmany
    rw [hsize] at hle
    omega

/-- The bounds theorem at a four-token line under a three-token limit. -/
theorem bound_enforcement_witness :
    (0 < tight_config.max_args ∧ 0 < tight_config.max_arg_length ∧
        ((tokenize (sanitize_input "ping -c 1 8.8.8.8".toList)).length : Int) >
          tight_config.max_args) ∧
      ∀ e ∈ (process_line tight_config reachable_world "ping -c 1 8.8.8.8".toList []).events,
        e.reaches_subprocess = false ∧ e.is_preflight = false :=
  ⟨⟨by decide, by decide, by decide⟩,
    bound_enforcement tight_config reachable_world "ping -c 1 8.8.8.8".toList []
      (by decide) (by decide) (by decide) (Or.inl (by decide)) (Or.inr (by decide))⟩

/-! ## The order of the pre-flight and the argument check (C6) -/

/-- A line whose tokens are `ssh` and `args` and that passes both bounds checks
is processed by the ssh block followed by the argument check. -/
theorem process_line_ssh (config : Config) (w : World) (line : Str) (stdin : List Str)
    (args : List Str)
    (hverb : tokenize (sanitize_input line) = "ssh".toList :: args)
    (hlong : ¬ (sanitize_input line).length >
      to_size_t (int_mul config.max_arg_length config.max_args))
    (hmany : ¬ ("ssh".toList :: args).length > to_size_t config.max_args) :
    process_line config w line stdin =
      preflight_then_gate config w "ssh".toList args stdin := by
  have hne : ¬ sanitize_input line = [] := by
    intro h
    rw [h] at hverb
    simp [tokenize, read_words] at hverb
  have hexit : ¬ sanitize_input line = "exit".toList := by
    intro h
    rw [h] at hverb
    have ht : tokenize "exit".toList = ["exit".toList] := by decide
    rw [ht] at hverb
    exact absurd (List.cons.inj hverb).1 (by decide)
  have hallow : is_allowed_command "ssh".toList = true := by decide
  unfold process_line
  simp only
  rw [if_neg hne, if_neg hexit, if_neg hlong, hverb]
  simp only
  rw [if_neg hmany, hallow]
  rfl

/-- The ssh block never prints the diagnostic of the argument check. -/
theorem key_step_no_rejection (w : World) (hostname : Str) (stdin : List Str) :
    ∀ e ∈ (key_step w hostname stdin).events,
      e ≠ .cerr .invalid_or_unsafe_arguments := by
  unfold key_step
  (repeat' split) <;> simp

theorem port_step_no_rejection (w : World) (hostname : Str) (port : Int) (stdin : List Str) :
    ∀ e ∈ (port_step w hostname port stdin).events,
      e ≠ .cerr .invalid_or_unsafe_arguments := by
  unfold port_step
  (repeat' split) <;> simp <;> exact key_step_no_rejection _ _ _

theorem ping_step_no_rejection (w : World) (hostname : Str) (port : Int) (stdin : List Str) :
    ∀ e ∈ (ping_step w hostname port stdin).events,
      e ≠ .cerr .invalid_or_unsafe_arguments := by
  unfold ping_step
  (repeat' split) <;> simp <;> exact port_step_no_rejection _ _ _ _

theorem ssh_preflight_no_rejection (w : World) (tokens : List Str) (stdin : List Str) :
    ∀ e ∈ (ssh_preflight w tokens stdin).events,
      e ≠ .cerr .invalid_or_unsafe_arguments := by
  unfold ssh_preflight
  (repeat' split) <;> simp <;> exact ping_step_no_rejection _ _ _ _

/-- The known-host step always begins with the call of `check_ssh_key`. -/
theorem key_step_checks (w : World) (hostname : Str) (stdin : List Str) :
    Event.check_ssh_key hostname (w.check_ssh_key hostname) ∈
      (key_step w hostname stdin).events := by
  unfold key_step
  split <;> rename_i hr <;> rw [hr] <;> simp

/-- When the port step leaves the ssh block at its end, the port probe and the
known-host check were made. -/
theorem port_step_passed (w : World) (hostname : Str) (port : Int) (stdin : List Str)
    (h : (port_step w hostname port stdin).outcome = none) :
    Event.is_port_open hostname port (w.is_port_open hostname port) ∈
        (port_step w hostname port stdin).events ∧
      Event.check_ssh_key hostname (w.check_ssh_key hostname) ∈
        (port_step w hostname port stdin).events := by
  unfold port_step at h ⊢
  by_cases hopen : w.is_port_open hostname port = true
  · rw [if_pos hopen] at h ⊢
    simp only [emit_events, List.mem_cons]
    exact ⟨Or.inl (by rw [hopen]), Or.inr (key_step_checks _ _ _)⟩
  · rw [if_neg hopen] at h ⊢
    have hfalse : w.is_port_open hostname port = false := by simpa using hopen
    by_cases hyes : (getline stdin).1 ≠ "yes".toList
    · rw [if_pos hyes] at h
      simp at h
    · rw [if_neg hyes]
      simp only [emit_events, List.mem_cons]
      exact ⟨Or.inl (by rw [hfalse]), Or.inr (Or.inr (Or.inr (key_step_checks _ _ _)))⟩

/-- When the ping step leaves the ssh block at its end, the ping probe, the
port probe and the known-host check were made. -/
theorem ping_step_passed (w : World) (hostname : Str) (port : Int) (stdin : List Str)
    (h : (ping_step w hostname port stdin).outcome = none) :
    Event.ping_host hostname (w.ping_host hostname) ∈
        (ping_step w hostname port stdin).events ∧
      Event.is_port_open hostname port (w.is_port_open hostname port) ∈
        (ping_step w hostname port stdin).events ∧
      Event.check_ssh_key hostname (w.check_ssh_key hostname) ∈
        (ping_step w hostname port stdin).events := by
  unfold ping_step at h ⊢
  by_cases hping : w.ping_host hostname = .exit_zero
  · rw [if_pos hping] at h ⊢
    simp only [emit_outcome] at h
    obtain ⟨hp, hc⟩ := port_step_passed w hostname port stdin h
    simp only [emit_events, List.mem_cons]
    exact ⟨Or.inl trivial, Or.inr hp, Or.inr hc⟩
  · rw [if_neg hping] at h ⊢
    by_cases hyes : (getline stdin).1 ≠ "yes".toList
    · rw [if_pos hyes] at h
      simp at h
    · rw [if_neg hyes] at h ⊢
      simp only [emit_outcome] at h
      obtain ⟨hp, hc⟩ := port_step_passed w hostname port _ h
      simp only [emit_events, List.mem_cons]
      exact ⟨Or.inl trivial, Or.inr (Or.inr (Or.inr hp)), Or.inr (Or.inr (Or.inr hc))⟩

/-- When the ssh block is left at its end, the hostname taken from the last
argument was resolved, and the ping probe, the port probe and the known-host
check were made for it. -/
theorem ssh_preflight_passed (w : World) (tokens : List Str) (stdin : List Str) (last : Str)
    (hlast : tokens.getLast? = some last)
    (h : (ssh_preflight w tokens stdin).outcome = none) :
    Event.is_valid_hostname (extract_hostname last) true ∈
        (ssh_preflight w tokens stdin).events ∧
      Event.ping_host (extract_hostname last) (w.ping_host (extract_hostname last)) ∈
        (ssh_preflight w tokens stdin).events ∧
      (∃ port, Event.is_port_open (extract_hostname last) port
          (w.is_port_open (extract_hostname last) port) ∈
        (ssh_preflight w tokens stdin).events) ∧
      Event.check_ssh_key (extract_hostname last) (w.check_ssh_key (extract_hostname last)) ∈
        (ssh_preflight w tokens stdin).events := by
  have hfin : ∀ port, (ping_step w (extract_hostname last) port stdin).outcome = none →
      w.is_valid_hostname (extract_hostname last) = true →
      Event.is_valid_hostname (extract_hostname last) true ∈
          Event.is_valid_hostname (extract_hostname last)
              (w.is_valid_hostname (extract_hostname last)) ::
            (ping_step w (extract_hostname last) port stdin).events ∧
        Event.ping_host (extract_hostname last) (w.ping_host (extract_hostname last)) ∈
          Event.is_valid_hostname (extract_hostname last)
              (w.is_valid_hostname (extract_hostname last)) ::
            (ping_step w (extract_hostname last) port stdin).events ∧
        (∃ p, Event.is_port_open (extract_hostname last) p
            (w.is_port_open (extract_hostname last) p) ∈
          Event.is_valid_hostname (extract_hostname last)
              (w.is_valid_hostname (extract_hostname last)) ::
            (ping_step w (extract_hostname last) port stdin).events) ∧
        Event.check_ssh_key (extract_hostname last)
            (w.check_ssh_key (extract_hostname last)) ∈
          Event.is_valid_hostname (extract_hostname last)
              (w.is_valid_hostname (extract_hostname last)) ::
            (ping_step w (extract_hostname last) port stdin).events := by
    intro port hout hvalid
    obtain ⟨hp, ho, hc⟩ := ping_step_passed w (extract_hostname last) port stdin hout
    refine ⟨?_, List.mem_cons_of_mem _ hp, ⟨port, List.mem_cons_of_mem _ ho⟩,
      List.mem_cons_of_mem _ hc⟩
    rw [hvalid]
    exact List.mem_cons_self _ _
  unfold ssh_preflight at h ⊢
  rw [hlast] at h ⊢
  simp only at h ⊢
  by_cases hvalid : w.is_valid_hostname (extract_hostname last) = true
  · rw [if_pos hvalid] at h ⊢
    simp only [emit_outcome] at h
    cases htok : token_after_p tokens with
    | none =>
        rw [htok] at h
        exact hfin 22 h hvalid
    | some port_token =>
        rw [htok] at h
        simp only at h ⊢
        cases hs : stoi port_token with
        | value ssh_port =>
            rw [hs] at h
            exact hfin ssh_port h hvalid
        | invalid_argument =>
            rw [hs] at h
            simp at h
        | out_of_range =>
            rw [hs] at h
            simp at h
  · rw [if_neg hvalid] at h
    simp at h

/-- With a non-negative `max_arg_length`, `is_safe_argument` rejects every ssh
argument that begins with `-L`, `-R` or `-D`, is outside the language of the
ssh pattern, or is longer than `max_arg_length`. -/
theorem is_safe_argument_ssh_rejects (arg : Str) (max_arg_length : Int)
    (h0 : 0 ≤ max_arg_length) (h1 : max_arg_length ≤ INT_MAX)
    (hbad : starts_with "-L".toList arg = true ∨ starts_with "-R".toList arg = true ∨
      starts_with "-D".toList arg = true ∨ ¬ Regex.Matches ssh_arg_regex arg ∨
      (arg.length : Int) > max_arg_length) :
    is_safe_argument arg "ssh".toList max_arg_length = false := by
  cases hs : is_safe_argument arg "ssh".toList max_arg_length with
  | false => rfl
  | true =>
      exfalso
      obtain ⟨hlen, hg⟩ := is_safe_argument_sound arg "ssh".toList max_arg_length h0 h1 hs
      rcases hg with ⟨-, hL, hR, hD, hm⟩ | ⟨hk, -⟩ | ⟨hk, -⟩
      · rcases hbad with h | h | h | h | h
        · rw [hL] at h; exact absurd h (by simp)
        · rw [hR] at h; exact absurd h (by simp)
        · rw [hD] at h; exact absurd h (by simp)
        · exact h hm
        · omega
      · exact absurd hk (by decide)
      · exact absurd hk (by decide)

/-- C6 (amended). For every config whose `max_arg_length` is a non-negative
`int` and every input line on which neither bounds check of the loop fires,
whose verb is `ssh` and which has at least one argument that fails the ssh
argument grammar (it begins with `-L`, `-R` or `-D`, or is outside the
language of the ssh pattern) or exceeds `max_arg_length`: `execute_command` is
never called; the ssh pre-flight runs first, on the unchecked arguments,
starting with the resolution of the hostname taken from the last argument;
and the rejection `Error: Invalid or unsafe arguments.`, when it is printed,
is the last step of the pass and comes after the hostname was resolved and the
ping probe, the port probe and the known-host check were made. The trace is
the whole trace of the ssh block, followed by the rejection exactly when the
block runs to its end. -/
theorem rejection_follows_preflight (config : Config) (w : World) (line : Str)
    (stdin : List Str) (args : List Str)
    (h0 : 0 ≤ config.max_arg_length) (h1 : config.max_arg_length ≤ INT_MAX)
    (hverb : tokenize (sanitize_input line) = "ssh".toList :: args)
    (hlong : ¬ (sanitize_input line).length >
      to_size_t (int_mul config.max_arg_length config.max_args))
    (hmany : ¬ ("ssh".toList :: args).length > to_size_t config.max_args)
    (hbad : ∃ a ∈ args, starts_with "-L".toList a = true ∨ starts_with "-R".toList a = true ∨
      starts_with "-D".toList a = true ∨ ¬ Regex.Matches ssh_arg_regex a ∨
      (a.length : Int) > config.max_arg_length) :
    (∀ e ∈ (process_line config w line stdin).events, e.is_execute = false) ∧
      (∃ last, args.getLast? = some last ∧
        (process_line config w line stdin).events.head? =
          some (.is_valid_hostname (extract_hostname last)
            (w.is_valid_hostname (extract_hostname last))) ∧
        (Event.cerr Diagnostic.invalid_or_unsafe_arguments ∈
            (process_line config w line stdin).events →
          (process_line config w line stdin).events.getLast? =
              some (Event.cerr Diagnostic.invalid_or_unsafe_arguments) ∧
            Event.is_valid_hostname (extract_hostname last) true ∈
              (process_line config w line stdin).events ∧
            Event.ping_host (extract_hostname last) (w.ping_host (extract_hostname last)) ∈
              (process_line config w line stdin).events ∧
            (∃ port, Event.is_port_open (extract_hostname last) port
                (w.is_port_open (extract_hostname last) port) ∈
              (process_line config w line stdin).events) ∧
            Event.check_ssh_key (extract_hostname last)
                (w.check_ssh_key (extract_hostname last)) ∈
              (process_line config w line stdin).events)) ∧
      (process_line config w line stdin).events =
        (ssh_preflight w args stdin).events ++
          (if (ssh_preflight w args stdin).outcome = none then
            [Event.cerr Diagnostic.invalid_or_unsafe_arguments] else []) := by
  obtain ⟨a, ha, hfail⟩ := hbad
  have hall : args.all (fun arg => is_safe_argument arg "ssh".toList config.max_arg_length)
      = false := by
    rw [List.all_eq_false]
    refine ⟨a, ha, ?_⟩
    rw [is_safe_argument_ssh_rejects a config.max_arg_length h0 h1 hfail]
    simp
  have hevents : (process_line config w line stdin).events =
      (ssh_preflight w args stdin).events ++
        (if (ssh_preflight w args stdin).outcome = none then
          [Event.cerr Diagnostic.invalid_or_unsafe_arguments] else []) := by
    rw [process_line_ssh config w line stdin args hverb hlong hmany]
    unfold preflight_then_gate
    rw [if_pos rfl]
    split
    · rename_i o ho
      simp [ho]
    · rename_i ho
      rw [gate_reject config w _ args _ hall]
      simp [ho]
  have hne : args ≠ [] := List.ne_nil_of_mem ha
  obtain ⟨last, hlast⟩ : ∃ last, args.getLast? = some last := by
    cases hg : args.getLast? with
    | none => exact absurd (List.getLast?_eq_none_iff.mp hg) hne
    | some last => exact ⟨last, rfl⟩
  refine ⟨?_, ⟨last, hlast, ?_, ?_⟩, hevents⟩
  · intro e he
    rw [hevents, List.mem_append] at he
    rcases he with he | he
    · exact ssh_preflight_no_execute w args stdin e he
    · split at he
      · simp only [List.mem_singleton] at he
        subst he
        rfl
      · simp at he
  · rw [hevents]
    have hhead := ssh_preflight_head w args stdin last hlast
    cases hp : (ssh_preflight w args stdin).events with
    | nil => rw [hp] at hhead; simp at hhead
    | cons x xs =>
        rw [hp] at hhead
        simpa using hhead
  · intro hrej
    rw [hevents] at hrej ⊢
    by_cases hout : (ssh_preflight w args stdin).outcome = none
    · rw [if_pos hout]
      obtain ⟨hv, hp, ⟨port, ho⟩, hc⟩ := ssh_preflight_passed w args stdin last hlast hout
      exact ⟨by simp, List.mem_append_left _ hv, List.mem_append_left _ hp,
        ⟨port, List.mem_append_left _ ho⟩, List.mem_append_left _ hc⟩
    · rw [if_neg hout, List.append_nil] at hrej
      exact absurd rfl (ssh_preflight_no_rejection w args stdin _ hrej)

/-- The ordering theorem at the line of scenario S2. -/
theorem rejection_follows_preflight_witness :
    (0 ≤ default_config.max_arg_length ∧
      tokenize (sanitize_input forwarding_line) = "ssh".toList :: forwarding_args ∧
      "-L".toList ∈ forwarding_args ∧ starts_with "-L".toList "-L".toList = true) ∧
    ((∀ e ∈ (process_line default_config reachable_world forwarding_line []).events,
        e.is_execute = false) ∧
      (∃ last, forwarding_args.getLast? = some last ∧
        (process_line default_config reachable_world forwarding_line []).events.head? =
          some (.is_valid_hostname (extract_hostname last)
            (reachable_world.is_valid_hostname (extract_hostname last))) ∧
        (Event.cerr Diagnostic.invalid_or_unsafe_arguments ∈
            (process_line default_config reachable_world forwarding_line []).events →
          (process_line default_config reachable_world forwarding_line []).events.getLast? =
              some (Event.cerr Diagnostic.invalid_or_unsafe_arguments) ∧
            Event.is_valid_hostname (extract_hostname last) true ∈
              (process_line default_config reachable_world forwarding_line []).events ∧
            Event.ping_host (extract_hostname last)
                (reachable_world.ping_host (extract_hostname last)) ∈
              (process_line default_config reachable_world forwarding_line []).events ∧
            (∃ port, Event.is_port_open (extract_hostname last) port
                (reachable_world.is_port_open (extract_hostname last) port) ∈
              (process_line default_config reachable_world forwarding_line []).events) ∧
            Event.check_ssh_key (extract_hostname last)
                (reachable_world.check_ssh_key (extract_hostname last)) ∈
              (process_line default_config reachable_world forwarding_line []).events)) ∧
      (process_line default_config reachable_world forwarding_line []).events =
        (ssh_preflight reachable_world forwarding_args []).events ++
          (if (ssh_preflight reachable_world forwarding_args []).outcome = none then
            [Event.cerr Diagnostic.invalid_or_unsafe_arguments] else [])) :=
  ⟨⟨by decide, by decide, by decide, by decide⟩,
    rejection_follows_preflight default_config reachable_world forwarding_line []
      forwarding_args (by decide) (by decide) (by decide) (by decide) (by decide)
      ⟨"-L".toList, by decide, Or.inl (by decide)⟩⟩

/-- C6, as stated, fails on the line of scenario S2, whose argument `-L` fails
the ssh grammar: the hostname resolution, the ping probe, the port probe and
the known-host check all run before the rejection; when the host key is
unknown and the operator answers `yes`, the key is appended to `known_hosts`
before the rejection; and on the same line for a name that does not resolve,
the rejection is `Error: Invalid hostname or IP address.` instead. -/
theorem preflight_runs_before_rejection :
    tokenize (sanitize_input forwarding_line) = "ssh".toList :: forwarding_args ∧
      "-L".toList ∈ forwarding_args ∧ starts_with "-L".toList "-L".toList = true ∧
      is_safe_argument "-L".toList "ssh".toList default_config.max_arg_length = false ∧
      (process_line default_config reachable_world forwarding_line []).events =
        [.is_valid_hostname "1.2.3.4".toList true, .ping_host "1.2.3.4".toList .exit_zero,
          .is_port_open "1.2.3.4".toList 22 true, .check_ssh_key "1.2.3.4".toList .known,
          .cerr .invalid_or_unsafe_arguments] ∧
      (∃ e ∈ (process_line default_config
          { reachable_world with check_ssh_key := fun _ => .unknown }
          forwarding_line ["yes".toList]).events,
        e.writes_known_hosts = true) ∧
      (process_line default_config
          { reachable_world with
            is_valid_hostname := fun hostname => hostname != "unresolvable.invalid".toList }
          "ssh -L 8080:x:22 user@unresolvable.invalid".toList []).events =
        [.is_valid_hostname "unresolvable.invalid".toList false, .cerr .invalid_hostname] := by
  decide

/-! ## The sanitizer (C10) -/

/-- C10. For every input `x`, `sanitize_input x` is exactly the subsequence of
`x` made of its characters from the permitted alphabet (ASCII letters, ASCII
digits, space, `-`, `.`, `@`, `_`, `/`), in their original order: it is the
filter of `x` by membership in the alphabet, every character of the result is
in the alphabet, the result is a subsequence of `x`, and every permitted
character occurs in the result as often as in `x`. -/
theorem sanitize_input_is_alphabet_filter (x : Str) :
    sanitize_input x = x.filter (fun c => permitted_alphabet.contains c) ∧
      (∀ c ∈ sanitize_input x, c ∈ permitted_alphabet) ∧
      List.Sublist (sanitize_input x) x ∧
      (∀ c ∈ permitted_alphabet, (sanitize_input x).count c = x.count c) := by
  have hfilter : sanitize_input x = x.filter (fun c => permitted_alphabet.contains c) := by
    rw [sanitize_input_eq_filter]
    congr 1
    funext c
    exact sanitize_keep_eq c
  refine ⟨hfilter, ?_, ?_, ?_⟩
  · intro c hc
    rw [hfilter] at hc
    simpa using (List.mem_filter.mp hc).2
  · rw [hfilter]
    exact List.filter_sublist x
  · intro c hc
    rw [hfilter, List.count_filter]
    simpa using hc

/-! ## The ssh target (C8) -/

theorem find_char_none (c : Char) (t : Str) (h : c ∉ t) : find_char c t = none := by
  induction t with
  | nil => rfl
  | cons x xs ih =>
      simp only [List.mem_cons, not_or] at h
      have hx : ¬ x = c := fun hxc => h.1 hxc.symm
      simp [find_char, hx, ih h.2]

theorem find_char_first (c : Char) (u v : Str) (h : c ∉ u) :
    find_char c (u ++ c :: v) = some u.length := by
  induction u with
  | nil => simp [find_char]
  | cons x xs ih =>
      simp only [List.mem_cons, not_or] at h
      have hx : ¬ x = c := fun hxc => h.1 hxc.symm
      simp [find_char, hx, ih h.2]

/-- C8 (amended). For every token `t`, `extract_hostname t` is the substring of
`t` after the first `@` if `t` contains an `@`, and `t` itself otherwise. -/
theorem extract_hostname_after_first_at (t : Str) :
    (∀ u v : Str, t = u ++ '@' :: v → '@' ∉ u → extract_hostname t = v) ∧
      ('@' ∉ t → extract_hostname t = t) := by
  constructor
  · rintro u v rfl hu
    simp [extract_hostname, find_char_first '@' u v hu]
  · intro h
    simp [extract_hostname, find_char_none '@' t h]

/-- C8, as stated, fails on a token with two `@`: the source cuts `a@b@c` after
the first `@`, the substring after the last `@` is `c`. -/
theorem extract_hostname_not_after_last_at :
    extract_hostname "a@b@c".toList = "b@c".toList ∧
      spec_ssh_target "a@b@c".toList = "c".toList ∧
      extract_hostname "a@b@c".toList ≠ spec_ssh_target "a@b@c".toList := by
  decide

/-! ## Scenario S5 (C5) -/

/-- C5 (amended). Scenario S5 under the default configuration: the line
`ping $(whoami)` is sanitized to `ping whoami`, the argument `whoami` matches
the ping pattern (its last alternative, a host name), `is_safe_argument`
accepts it, and the line is admitted: the only call made is
`execute_command("ping", ["whoami"])` and the diagnostic
`Error: Invalid or unsafe arguments.` is not printed. -/
theorem scenario_S5_is_admitted (w : World) (stdin : List Str) :
    sanitize_input "ping $(whoami)".toList = "ping whoami".toList ∧
      Regex.Matches ping_arg_regex "whoami".toList ∧
      is_safe_argument "whoami".toList "ping".toList default_config.max_arg_length = true ∧
      (process_line default_config w "ping $(whoami)".toList stdin).events.head? =
        some (.execute_command "ping".toList ["whoami".toList]
          (w.execute_command "ping".toList ["whoami".toList])) ∧
      Event.cerr .invalid_or_unsafe_arguments ∉
        (process_line default_config w "ping $(whoami)".toList stdin).events := by
  have hrun : process_line default_config w "ping $(whoami)".toList stdin =
      gate_and_execute default_config w "ping".toList ["whoami".toList] stdin := by rfl
  have hsafe : is_safe_argument "whoami".toList "ping".toList
      default_config.max_arg_length = true := by decide
  refine ⟨by decide, (regex_match_iff _ _).mp (by decide), hsafe, ?_, ?_⟩
  · rw [hrun]
    unfold gate_and_execute
    simp only [List.all_cons, List.all_nil, hsafe, Bool.and_true, if_true]
    split <;> rename_i hr <;> rw [hr] <;> rfl
  · rw [hrun]
    unfold gate_and_execute
    simp only [List.all_cons, List.all_nil, hsafe, Bool.and_true, if_true]
    split <;> simp

/-- C5, as stated, fails: `is_safe_argument("whoami", "ping", 100)` is true,
and with a reachable world the line `ping $(whoami)` runs
`execute_command("ping", ["whoami"])` instead of being rejected. -/
theorem scenario_S5_not_rejected :
    is_safe_argument "whoami".toList "ping".toList DEFAULT_MAX_ARG_LENGTH ≠ false ∧
      (process_line default_config reachable_world "ping $(whoami)".toList []).events =
        [.execute_command "ping".toList ["whoami".toList] .ran] := by
  decide

/-! ## Exceptions inside the session loop (C7) -/

/-- C7, the failing inputs. With the line `ssh -p x 1.2.3.4` the `std::stoi`
exception leaves the loop: the session ends as `fatal` after the hostname
resolution and the next line, `ping 1.2.3.4`, is never read. The same happens
when `popen` fails in `check_ssh_key`. -/
theorem uncaught_exception_ends_session :
    run_session default_config (fun _ => reachable_world)
        ["ssh -p x 1.2.3.4".toList, "ping 1.2.3.4".toList] =
      ([.prompt, .is_valid_hostname "1.2.3.4".toList true], .fatal "stoi".toList) ∧
    run_session default_config
        (fun _ => { reachable_world with check_ssh_key := fun _ => .popen_failed })
        ["ssh 1.2.3.4".toList, "ping 1.2.3.4".toList] =
      ([.prompt, .is_valid_hostname "1.2.3.4".toList true,
          .ping_host "1.2.3.4".toList .exit_zero, .is_port_open "1.2.3.4".toList 22 true,
          .check_ssh_key "1.2.3.4".toList .popen_failed],
        .fatal "popen() failed!".toList) := by
  decide

/-! ## The command timeout (C9) -/

/-- C9, the failing input. With `command_timeout = 30` and start time 0, the
passes at times 31 and 32 start after the timeout has expired; the master is
ready in both, its bytes are relayed to standard output, no `SIGTERM` is sent
and the loop keeps running: the elapsed time is only looked at in a pass
whose `select` returns zero descriptors. -/
theorem relay_continues_after_timeout :
    (31 : Int) - 0 > 30 ∧
      relay_loop 30 0
          [⟨31, .ready none (some (.bytes "a".toList))⟩,
            ⟨32, .ready none (some (.bytes "b".toList))⟩] =
        ([.write_stdout "a".toList, .write_stdout "b".toList], .running) ∧
      RelayEvent.sigterm ∉
        (relay_loop 30 0
          [⟨31, .ready none (some (.bytes "a".toList))⟩,
            ⟨32, .ready none (some (.bytes "b".toList))⟩]).1 := by
  decide

/-! ## Idempotence of the sanitizer (C11) -/

/-- C11. For every input string `x`,
`sanitize_input (sanitize_input x) = sanitize_input x`. -/
theorem sanitize_input_idempotent (x : Str) :
    sanitize_input (sanitize_input x) = sanitize_input x := by
  rw [sanitize_input_eq_filter (sanitize_input x), sanitize_input_eq_filter x,
    List.filter_filter]
  congr 1
  funext c
  cases sanitize_keep c <;> rfl

/-! ## The last argument of `ssh` (C12) -/

/-- C12, the failing input. The line `ssh` is not empty, is not `exit`, passes
the length bound and the token-count bound of the default configuration and
has the allowed verb `ssh`; its argument list is empty, so `tokens.back()` is
taken on an empty vector: the pass is undefined, and a session that reads this
line stops there without reading the next one. -/
theorem bare_ssh_takes_back_of_empty_list :
    tokenize (sanitize_input "ssh".toList) = ["ssh".toList] ∧
      ¬ (sanitize_input "ssh".toList).length >
          to_size_t (int_mul default_config.max_arg_length default_config.max_args) ∧
      ¬ (tokenize (sanitize_input "ssh".toList)).length > to_size_t default_config.max_args ∧
      (tokenize (sanitize_input "ssh".toList)).tail.getLast? = none ∧
      (process_line default_config reachable_world "ssh".toList []).outcome = .undefined ∧
      run_session default_config (fun _ => reachable_world)
          ["ssh".toList, "ping 1.2.3.4".toList] = ([.prompt], .undefined) := by
  decide

/-! ## The hostname of the pre-flight command lines (C13) -/

/-- Every word that `operator>>` extracts is made of characters of the input
that are not whitespace, or of characters already read into `cur`. -/
theorem read_words_chars (P : Char → Prop) :
    ∀ (s cur : Str), (∀ c ∈ cur, P c) → (∀ c ∈ s, isspace c = false → P c) →
      ∀ t ∈ read_words s cur, ∀ c ∈ t, P c := by
  intro s
  induction s with
  | nil =>
      intro cur hcur _ t ht c hc
      unfold read_words at ht
      split at ht
      · simp at ht
      · simp only [List.mem_singleton] at ht
        subst ht
        exact hcur c hc
  | cons x xs ih =>
      intro cur hcur hs t ht c hc
      have hxs : ∀ c ∈ xs, isspace c = false → P c :=
        fun c hc => hs c (List.mem_cons_of_mem _ hc)
      unfold read_words at ht
      split at ht
      · split at ht
        · exact ih [] (by simp) hxs t ht c hc
        · rcases List.mem_cons.mp ht with rfl | ht
          · exact hcur c hc
          · exact ih [] (by simp) hxs t ht c hc
      · rename_i hx
        refine ih (cur ++ [x]) ?_ hxs t ht c hc
        intro d hd
        rcases List.mem_append.mp hd with hd | hd
        · exact hcur d hd
        · simp only [List.mem_singleton] at hd
          subst hd
          exact hs d (List.mem_cons_self _ _) (by simpa using hx)

theorem alphabet_without_space :
    ∀ c ∈ permitted_alphabet, c ∈ hostname_alphabet ∨ isspace c = true := by
  decide

theorem hostname_alphabet_safe : ∀ c ∈ hostname_alphabet, c ∉ shell_metacharacters := by
  decide

/-- Every character of a token of the sanitized line is in the hostname
alphabet. -/
theorem token_chars (line t : Str) (c : Char) (ht : t ∈ tokenize (sanitize_input line))
    (hc : c ∈ t) : c ∈ hostname_alphabet := by
  have h := read_words_chars (fun c => sanitize_keep c = true ∧ isspace c = false)
    (sanitize_input line) [] (by simp)
    (by
      intro d hd hsp
      rw [sanitize_input_eq_filter] at hd
      exact ⟨(List.mem_filter.mp hd).2, hsp⟩)
    t ht c hc
  have hmem : c ∈ permitted_alphabet := by
    have := h.1
    rw [sanitize_keep_eq] at this
    simpa using this
  rcases alphabet_without_space c hmem with hin | hsp
  · exact hin
  · rw [h.2] at hsp
    exact absurd hsp (by simp)

theorem extract_hostname_subset (t : Str) (c : Char) (h : c ∈ extract_hostname t) : c ∈ t := by
  unfold extract_hostname at h
  split at h
  · exact List.mem_of_mem_drop h
  · exact h

theorem key_step_hostname (w : World) (hostname : Str) (stdin : List Str) :
    ∀ e ∈ (key_step w hostname stdin).events, ∀ h, e.popen_hostname = some h →
      h = hostname := by
  unfold key_step
  (repeat' split) <;> simp [Event.popen_hostname]

theorem port_step_hostname (w : World) (hostname : Str) (port : Int) (stdin : List Str) :
    ∀ e ∈ (port_step w hostname port stdin).events, ∀ h, e.popen_hostname = some h →
      h = hostname := by
  unfold port_step
  (repeat' split) <;> simp [Event.popen_hostname] <;> exact key_step_hostname _ _ _

theorem ping_step_hostname (w : World) (hostname : Str) (port : Int) (stdin : List Str) :
    ∀ e ∈ (ping_step w hostname port stdin).events, ∀ h, e.popen_hostname = some h →
      h = hostname := by
  unfold ping_step
  (repeat' split) <;> simp [Event.popen_hostname] <;> exact port_step_hostname _ _ _ _

/-- A hostname that the ssh block hands to a `popen`-based helper is the one
extracted from the last argument, and the resolver accepted it. -/
theorem ssh_preflight_hostname (w : World) (tokens : List Str) (stdin : List Str) (e : Event)
    (h : Str) (he : e ∈ (ssh_preflight w tokens stdin).events)
    (hh : e.popen_hostname = some h) :
    ∃ last, tokens.getLast? = some last ∧ h = extract_hostname last ∧
      w.is_valid_hostname h = true := by
  unfold ssh_preflight at he
  split at he
  · simp at he
  · rename_i last hlast
    refine ⟨last, hlast, ?_⟩
    simp only [emit_events, List.mem_cons] at he
    rcases he with rfl | he
    · simp [Event.popen_hostname] at hh
    · split at he
      · rename_i hvalid
        have hstep : ∀ port, e ∈ (ping_step w (extract_hostname last) port stdin).events →
            h = extract_hostname last ∧ w.is_valid_hostname h = true := by
          intro port hmem
          have := ping_step_hostname w _ port stdin e hmem h hh
          subst this
          exact ⟨rfl, hvalid⟩
        split at he
        · exact hstep _ he
        · split at he
          · exact hstep _ he
          · simp at he
          · simp at he
      · simp only [emit_events, List.mem_cons, List.not_mem_nil, or_false] at he
        subst he
        simp [Event.popen_hostname] at hh

theorem gate_no_hostname (config : Config) (w : World) (command : Str) (tokens : List Str)
    (stdin : List Str) :
    ∀ e ∈ (gate_and_execute config w command tokens stdin).events,
      e.popen_hostname = none := by
  unfold gate_and_execute
  (repeat' split) <;> simp [Event.popen_hostname]

theorem popen_hostname_is_preflight (e : Event) (h : Str)
    (hh : e.popen_hostname = some h) : e.is_preflight = true := by
  cases e <;> simp_all [Event.popen_hostname, Event.is_preflight]

/-- A hostname that a pass hands to a `popen`-based helper comes from the last
token of the sanitized line and was accepted by the resolver. -/
theorem process_line_hostname (config : Config) (w : World) (line : Str) (stdin : List Str)
    (e : Event) (h : Str) (he : e ∈ (process_line config w line stdin).events)
    (hh : e.popen_hostname = some h) :
    ∃ last ∈ tokenize (sanitize_input line), h = extract_hostname last ∧
      w.is_valid_hostname h = true := by
  obtain ⟨command, args, htok, -, -, -, hmem⟩ :=
    process_line_reaches config w line stdin e he
      (Or.inr (popen_hostname_is_preflight e h hh))
  have hpre : e ∈ (ssh_preflight w args stdin).events := by
    unfold preflight_then_gate at hmem
    split at hmem
    · split at hmem
      · exact hmem
      · rcases List.mem_append.mp hmem with hm | hm
        · exact hm
        · have := gate_no_hostname config w command args _ e hm
          rw [this] at hh
          exact absurd hh (by simp)
    · have := gate_no_hostname config w command args _ e hmem
      rw [this] at hh
      exact absurd hh (by simp)
  obtain ⟨last, hlast, heq, hvalid⟩ := ssh_preflight_hostname w args stdin e h hpre hh
  refine ⟨last, ?_, heq, hvalid⟩
  rw [htok]
  exact List.mem_cons_of_mem _ (List.mem_of_getLast?_eq_some hlast)

/-- C13. For every input line, every hostname that the pass hands to
`ping_host`, `check_ssh_key` or `add_ssh_key`, where it is concatenated into a
command line for `popen`, consists only of ASCII letters, ASCII digits, `-`,
`.`, `@`, `_` and `/`, hence holds no whitespace, quote, `;`, `|`, `&`, `$`,
backtick or other shell metacharacter, and it is not empty. The characters
come from the sanitizer and the tokenizer; an empty hostname, which
`extract_hostname` yields for a last argument ending in its first `@`, is
stopped by `is_valid_hostname`, whose `inet_pton` and `getaddrinfo` fail on the
empty name (`hresolver`). A bare `ssh` has no hostname at all: its pass is
undefined before any helper is called. -/
theorem preflight_hostname_is_clean (config : Config) (w : World) (line : Str)
    (stdin : List Str) (hostname : Str)
    (hresolver : w.is_valid_hostname [] = false)
    (hpass : ∃ e ∈ (process_line config w line stdin).events,
      e.popen_hostname = some hostname) :
    hostname ≠ [] ∧ (∀ c ∈ hostname, c ∈ hostname_alphabet) ∧
      (∀ c ∈ hostname, c ∉ shell_metacharacters) := by
  obtain ⟨e, he, hh⟩ := hpass
  obtain ⟨last, hlast, heq, hvalid⟩ := process_line_hostname config w line stdin e hostname he hh
  have hchars : ∀ c ∈ hostname, c ∈ hostname_alphabet := by
    intro c hc
    rw [heq] at hc
    exact token_chars line last c hlast (extract_hostname_subset last c hc)
  refine ⟨?_, hchars, fun c hc => hostname_alphabet_safe c (hchars c hc)⟩
  intro hempty
  rw [hempty, hresolver] at hvalid
  exact absurd hvalid (by simp)

/-- The hostname theorem at the line `ssh user@1.2.3.4`, whose ping probe gets
the hostname `1.2.3.4`. -/
theorem preflight_hostname_is_clean_witness :
    (resolving_world.is_valid_hostname [] = false ∧
        ∃ e ∈ (process_line default_config resolving_world "ssh user@1.2.3.4".toList []).events,
          e.popen_hostname = some "1.2.3.4".toList) ∧
      ("1.2.3.4".toList ≠ [] ∧ (∀ c ∈ "1.2.3.4".toList, c ∈ hostname_alphabet) ∧
        (∀ c ∈ "1.2.3.4".toList, c ∉ shell_metacharacters)) :=
  ⟨⟨by decide, by decide⟩,
    preflight_hostname_is_clean default_config resolving_world "ssh user@1.2.3.4".toList []
      "1.2.3.4".toList (by decide) (by decide)⟩

end SecureShell
